import Mathlib

/-
  Verification development for the spellcast repository.

  Shallow embedding of the three core components the specification covers:
  the rate limiter (src/rate-limiter.js), the peer connection manager
  (peer-manager.js) and the message distribution engine (tweet-manager.js).
  JavaScript state is modelled as explicit record types, timestamps as
  integers (milliseconds), JS objects holding dynamic values as a small
  value type with JS truthiness, and JS Maps / plain objects as
  association lists updated by key.
-/

namespace Spellcast

/-! ## Rate limiter (src/rate-limiter.js) -/

/-- One record of `this.limits` in RateLimiter: `{ attempts, blocked, blockedUntil }`. -/
structure LimitRecord where
  attempts : List Int
  blocked : Bool
  blockedUntil : Int
deriving Repr, DecidableEq

/-- The fresh record installed when a key is first seen:
`{ attempts: [], blocked: false, blockedUntil: 0 }`. -/
def freshRecord : LimitRecord := ⟨[], false, 0⟩

/-- `this.limits`, a Map from `actionType:identifier` keys to limit records. -/
abbrev RLMap := List (String × LimitRecord)

/-- Key construction in `isAllowed` / `getTimeUntilAllowed` / `reset`. -/
def rlKey (actionType identifier : String) : String :=
  actionType ++ ":" ++ identifier

/-- Map lookup; a missing key behaves as the freshly initialized record,
mirroring the `if (!this.limits.has(key)) this.limits.set(key, {...})` prologue. -/
def rlLookup (m : RLMap) (k : String) : LimitRecord :=
  match List.find? (fun p => p.1 = k) m with
  | some p => p.2
  | none => freshRecord

/-- Map update (`Map.prototype.set` replaces the entry for the key). -/
def rlSet (m : RLMap) (k : String) (v : LimitRecord) : RLMap :=
  (k, v) :: List.filter (fun p => ¬ (p.1 = k)) m

/-- `record.attempts.filter(timestamp => now - timestamp < timeWindowMs)`. -/
def liveAttempts (now timeWindowMs : Int) (attempts : List Int) : List Int :=
  attempts.filter (fun t => now - t < timeWindowMs)

/-- Core of `RateLimiter.isAllowed` acting on one record: returns the
boolean result and the record as left behind in the map. -/
def isAllowedRecord (now : Int) (maxAttempts : Nat) (timeWindowMs : Int)
    (r : LimitRecord) : Bool × LimitRecord :=
  if r.blocked ∧ now < r.blockedUntil then
    (false, r)
  else
    let live := liveAttempts now timeWindowMs r.attempts
    if maxAttempts ≤ live.length then
      (false, ⟨live, true, now + timeWindowMs * 2⟩)
    else
      (true, ⟨live ++ [now], false, r.blockedUntil⟩)

/-- `RateLimiter.isAllowed(actionType, identifier, maxAttempts, timeWindowMs)`
with the current time made explicit; returns the result together with the
updated map. -/
def rlIsAllowed (now : Int) (actionType identifier : String)
    (maxAttempts : Nat) (timeWindowMs : Int) (m : RLMap) : Bool × RLMap :=
  let k := rlKey actionType identifier
  let step := isAllowedRecord now maxAttempts timeWindowMs (rlLookup m k)
  (step.1, rlSet m k step.2)

/-- `RateLimiter.getTimeUntilAllowed(actionType, identifier)` with explicit time. -/
def rlGetTimeUntilAllowed (now : Int) (actionType identifier : String)
    (m : RLMap) : Int :=
  match List.find? (fun p => p.1 = rlKey actionType identifier) m with
  | none => 0
  | some p =>
    if p.2.blocked ∧ now < p.2.blockedUntil then p.2.blockedUntil - now else 0

/-- A record is in an active cooldown at time `now`. -/
def activeCooldown (now : Int) (r : LimitRecord) : Prop :=
  r.blocked = true ∧ now < r.blockedUntil

instance (now : Int) (r : LimitRecord) : Decidable (activeCooldown now r) := by
  unfold activeCooldown; infer_instance

end Spellcast

namespace Spellcast

/-- Claim C1: for a key with parameters maxAttempts N and timeWindow W
(N ≥ 1, W > 0), a call with no active cooldown is allowed and records its
timestamp exactly when fewer than N recorded timestamps lie within the last
W; a call that finds N or more live timestamps is denied and starts a
cooldown ending 2×W after it; during an active cooldown every call is
denied with the record untouched; once the cooldown (which ends 2×W after
the blocking call, hence at least W after every recorded attempt) has
expired the next call is allowed again; and getTimeUntilAllowed returns
the remaining cooldown time, 0 when none is active. -/
theorem rateLimiter_isAllowed_cooldown_spec
    (a i : String) (N : Nat) (W now : Int) (m : RLMap)
    (hN : 1 ≤ N) (hW : 0 < W) :
    let r := rlLookup m (rlKey a i)
    let res := rlIsAllowed now a i N W m
    let live := liveAttempts now W r.attempts
    -- allowed iff no active cooldown and fewer than N live timestamps
    ((res.1 = true ↔ (¬ activeCooldown now r ∧ live.length < N))
    -- an allowed call appends the current timestamp and leaves no cooldown
    ∧ (res.1 = true →
        rlLookup res.2 (rlKey a i) = ⟨live ++ [now], false, r.blockedUntil⟩)
    -- a blocking call is denied and starts a cooldown ending now + 2·W
    ∧ (¬ activeCooldown now r → N ≤ live.length →
        res.1 = false ∧ rlLookup res.2 (rlKey a i) = ⟨live, true, now + W * 2⟩)
    -- during an active cooldown the call is denied and the record is unchanged
    ∧ (activeCooldown now r → res.1 = false ∧ rlLookup res.2 (rlKey a i) = r)
    -- after the cooldown has expired the next call is allowed again
    ∧ (r.blocked = true → r.blockedUntil ≤ now →
        (∀ t ∈ r.attempts, t + W * 2 ≤ r.blockedUntil) → res.1 = true)
    -- getTimeUntilAllowed exposes the remaining cooldown, 0 when none
    ∧ rlGetTimeUntilAllowed now a i m =
        (if activeCooldown now r then r.blockedUntil - now else 0)) := by
  intro r res live
  have hlook : rlLookup (rlSet m (rlKey a i)
      (isAllowedRecord now N W r).2) (rlKey a i) = (isAllowedRecord now N W r).2 := by
    simp [rlLookup, rlSet]
  have hres1 : res.1 = (isAllowedRecord now N W r).1 := rfl
  have hres2 : res.2 = rlSet m (rlKey a i) (isAllowedRecord now N W r).2 := rfl
  refine ⟨?_, ?_, ?_, ?_, ?_, ?_⟩
  · -- allowed iff not cooling down and under the threshold
    rw [hres1]
    unfold isAllowedRecord activeCooldown
    by_cases hb : r.blocked = true ∧ now < r.blockedUntil
    · simp [hb]
    · simp only [hb, if_neg hb]
      by_cases hc : N ≤ (liveAttempts now W r.attempts).length
      · simp [hc, live, Nat.not_lt_of_le hc]
      · simp [hc, live, Nat.lt_of_not_le hc]
  · -- successful call appends the timestamp
    intro hok
    rw [hres2, hlook]
    rw [hres1] at hok
    unfold isAllowedRecord at hok ⊢
    by_cases hb : r.blocked = true ∧ now < r.blockedUntil
    · simp [hb] at hok
    · simp only [if_neg hb] at hok ⊢
      by_cases hc : N ≤ (liveAttempts now W r.attempts).length
      · simp [hc] at hok
      · simp [hc, live]
  · -- blocking call: denied, cooldown ends now + 2·W
    intro hact hge
    rw [hres1, hres2, hlook]
    unfold isAllowedRecord
    have hb : ¬ (r.blocked = true ∧ now < r.blockedUntil) := hact
    simp only [if_neg hb]
    have : N ≤ (liveAttempts now W r.attempts).length := hge
    simp [this, live]
  · -- active cooldown: denied, record untouched
    intro hact
    rw [hres1, hres2, hlook]
    unfold isAllowedRecord
    have hb : r.blocked = true ∧ now < r.blockedUntil := hact
    simp [hb]
  · -- expired cooldown: all old attempts fall out of the window
    intro hbl hle hold
    rw [hres1]
    unfold isAllowedRecord
    have hb : ¬ (r.blocked = true ∧ now < r.blockedUntil) := by
      intro h
      exact absurd h.2 (not_lt.mpr hle)
    simp only [if_neg hb]
    have hlive : liveAttempts now W r.attempts = [] := by
      unfold liveAttempts
      apply List.filter_eq_nil_iff.mpr
      intro t ht
      have h1 : t + W * 2 ≤ r.blockedUntil := hold t ht
      have h2 : t + W * 2 ≤ now := le_trans h1 hle
      simp only [decide_eq_true_eq]
      omega
    rw [hlive]
    have hN1 : ¬ N = 0 := by omega
    simp [hN1]
  · -- getTimeUntilAllowed
    unfold rlGetTimeUntilAllowed activeCooldown
    cases hf : List.find? (fun p => p.1 = rlKey a i) m with
    | none =>
      have hr : r = freshRecord := by
        simp [r, rlLookup, hf]
      rw [hr]
      simp [freshRecord]
    | some p =>
      have hr : r = p.2 := by
        simp [r, rlLookup, hf]
      rw [hr]

/-- Witness for claim C1 at a concrete input: key ("msg","u"), N = 2,
W = 10, a record holding one live attempt at time 95, queried at time 100;
the call is allowed. -/
theorem rateLimiter_isAllowed_cooldown_spec_witness :
    (rlIsAllowed 100 "msg" "u" 2 10 [(rlKey "msg" "u", ⟨[95], false, 0⟩)]).1 = true := by
  have h := rateLimiter_isAllowed_cooldown_spec "msg" "u" 2 10 100
      [(rlKey "msg" "u", ⟨[95], false, 0⟩)] (by decide) (by decide)
  exact h.1.mpr (by decide)

/-! ## Connection quality aggregation (peer-manager.js,
`PeerManager.updateConnectionQualityIndicator`) -/

/-- The slice of PeerManager state read by `updateConnectionQualityIndicator`:
whether the signaling link is down (`!this.peer || this.peer.disconnected`),
the live connections (by peer id), and the `peerConnectionQuality` object
mapping every tracked peer id to a quality string. -/
structure QualState where
  peerDown : Bool
  connections : List String
  peerConnectionQuality : List (String × String)
deriving Repr, DecidableEq

/-- `qualityCounts[q]` after the `Object.values(this.peerConnectionQuality)`
counting loop: the number of tracked peers whose quality equals `q`. -/
def qualityCount (st : QualState) (q : String) : Nat :=
  (st.peerConnectionQuality.map (fun p => p.2)).count q

/-- `PeerManager.updateConnectionQualityIndicator`, returning the computed
aggregate quality string. -/
def updateConnectionQualityIndicator (st : QualState) : String :=
  if st.peerDown then "offline"
  else if st.connections.length = 0 then "unknown"
  else if 0 < qualityCount st "error" then "error"
  else if st.connections.length / 2 < qualityCount st "poor" then "poor"
  else if st.connections.length / 2 < qualityCount st "medium" then "medium"
  else if 0 < qualityCount st "good" then "good"
  else "unknown"

end Spellcast

namespace Spellcast

/-- Claim C4, counterexample: with the signaling link down the aggregate
quality is the string "offline", not "unknown" as the claim states. -/
theorem connectionQuality_linkDown_counterexample :
    updateConnectionQualityIndicator ⟨true, [], []⟩ = "offline"
    ∧ ¬ updateConnectionQualityIndicator ⟨true, [], []⟩ = "unknown" := by
  constructor <;> decide

/-- Claim C4 (amended): the aggregate connection quality is "offline" when
the signaling link is down; "unknown" when the link is up but there are
zero live sessions; otherwise it is derived from the tracked per-peer
quality values (which may include peers without a live session), with
majorities measured against the number of live sessions: any "error"
present yields "error", else more than half the session count of "poor"
yields "poor", else more than half of "medium" yields "medium", else any
"good" present yields "good", else "unknown". -/
theorem connectionQuality_aggregate_spec (st : QualState) :
    (st.peerDown = true → updateConnectionQualityIndicator st = "offline")
    ∧ (st.peerDown = false → st.connections.length = 0 →
        updateConnectionQualityIndicator st = "unknown")
    ∧ (st.peerDown = false → 0 < st.connections.length →
        0 < qualityCount st "error" →
        updateConnectionQualityIndicator st = "error")
    ∧ (st.peerDown = false → 0 < st.connections.length →
        qualityCount st "error" = 0 →
        st.connections.length / 2 < qualityCount st "poor" →
        updateConnectionQualityIndicator st = "poor")
    ∧ (st.peerDown = false → 0 < st.connections.length →
        qualityCount st "error" = 0 →
        qualityCount st "poor" ≤ st.connections.length / 2 →
        st.connections.length / 2 < qualityCount st "medium" →
        updateConnectionQualityIndicator st = "medium")
    ∧ (st.peerDown = false → 0 < st.connections.length →
        qualityCount st "error" = 0 →
        qualityCount st "poor" ≤ st.connections.length / 2 →
        qualityCount st "medium" ≤ st.connections.length / 2 →
        0 < qualityCount st "good" →
        updateConnectionQualityIndicator st = "good")
    ∧ (st.peerDown = false → 0 < st.connections.length →
        qualityCount st "error" = 0 →
        qualityCount st "poor" ≤ st.connections.length / 2 →
        qualityCount st "medium" ≤ st.connections.length / 2 →
        qualityCount st "good" = 0 →
        updateConnectionQualityIndicator st = "unknown") := by
  unfold updateConnectionQualityIndicator
  refine ⟨?_, ?_, ?_, ?_, ?_, ?_, ?_⟩
  · intro hd; simp [hd]
  · intro hd hz; simp [hd, hz]
  · intro hd hz he
    simp [hd, List.ne_nil_of_length_pos hz, he]
  · intro hd hz he hp
    simp [hd, List.ne_nil_of_length_pos hz, he, hp]
  · intro hd hz he hp hm
    simp [hd, List.ne_nil_of_length_pos hz, he, Nat.not_lt_of_le hp, hm]
  · intro hd hz he hp hm hg
    simp [hd, List.ne_nil_of_length_pos hz, he, Nat.not_lt_of_le hp,
      Nat.not_lt_of_le hm, hg]
  · intro hd hz he hp hm hg
    simp [hd, List.ne_nil_of_length_pos hz, he, Nat.not_lt_of_le hp,
      Nat.not_lt_of_le hm, hg]

/-- Witness for the amended claim C4: a single live session with quality
"good" yields aggregate "good". -/
theorem connectionQuality_aggregate_spec_witness :
    updateConnectionQualityIndicator ⟨false, ["b"], [("b", "good")]⟩ = "good" := by
  have h := connectionQuality_aggregate_spec ⟨false, ["b"], [("b", "good")]⟩
  exact h.2.2.2.2.2.1 rfl (by decide) (by decide) (by decide) (by decide) (by decide)

/-! ## Session reconciliation (peer-manager.js, `PeerManager.handleConnection`
and `PeerManager.connectToPeer`)

A connection object is identified by its peer id plus a distinguishing tag
(two transport connections to the same peer are distinct objects).
`handleConnection` runs a synchronous duplicate check (probe the existing
session; reject the new connection if the probe send succeeds, splice the
existing one out if it throws) and then registers an `open` handler which
pushes the connection into `this.connections` when the channel opens.
Check and open are therefore separate events on the single-threaded
timeline; `pending` holds connections that passed the check and whose
`open` has not fired yet. -/

structure Conn where
  peer : String
  tag : Nat
deriving Repr, DecidableEq

/-- The slice of PeerManager state involved in session reconciliation. -/
structure SessState where
  connections : List Conn
  handshakeCompleted : List String
  pending : List Conn
deriving Repr, DecidableEq

/-- Events of the reconciliation timeline: the synchronous duplicate check
at the start of `handleConnection` (with the outcome of probing the
existing session, `probeOk` = the `existingConn.send({type:'ping'})` did
not throw), and the later firing of the connection's `open` callback. -/
inductive SessEvent where
  | check (c : Conn) (probeOk : Bool)
  | openEv (c : Conn)
deriving Repr, DecidableEq

/-- One event step. On `check`: `findIndex` + `splice(i, 1)` removes the
first connection with a matching peer id, modelled by `eraseP`; a
responsive probe closes the new connection instead (it never becomes
pending, so its `open` does nothing). On `open`: a connection that passed
the check is pushed into the session table. -/
def sessStep (st : SessState) : SessEvent → SessState
  | .check c probeOk =>
    if st.connections.any (fun e => e.peer = c.peer) then
      if probeOk then st
      else
        { connections := st.connections.eraseP (fun e => decide (e.peer = c.peer)),
          handshakeCompleted := st.handshakeCompleted.filter (fun q => ¬ (q = c.peer)),
          pending := st.pending ++ [c] }
    else { st with pending := st.pending ++ [c] }
  | .openEv c =>
    if c ∈ st.pending then
      { st with connections := st.connections ++ [c],
                pending := st.pending.filter (fun d => ¬ (d = c)) }
    else st

/-- A connection attempt whose check and open are not interleaved with
other attempts: the `handleConnection` duplicate check immediately
followed by that connection's `open`. -/
def checkThenOpen (st : SessState) (c : Conn) (probeOk : Bool) : SessState :=
  sessStep (sessStep st (.check c probeOk)) (.openEv c)

/-- The duplicate-reconciliation path of `PeerManager.connectToPeer` (after
its argument/rate-limit guards): if a session to the peer id exists and
responds to the probe, the existing session is returned and no new
connection is created (`none`); otherwise the stale session is spliced out
and a fresh connection goes through `handleConnection` (whose own
duplicate check consults `probeOk2`) and is returned. -/
def connectToPeerReconcile (st : SessState) (peerId : String)
    (probeOk probeOk2 : Bool) (newConn : Conn) : SessState × Option Conn :=
  if st.connections.any (fun e => e.peer = peerId) then
    if probeOk then (st, none)
    else
      let st1 : SessState :=
        { connections := st.connections.eraseP (fun e => decide (e.peer = peerId)),
          handshakeCompleted := st.handshakeCompleted.filter (fun q => ¬ (q = peerId)),
          pending := st.pending }
      (sessStep st1 (.check newConn probeOk2), some newConn)
  else (sessStep st (.check newConn probeOk2), some newConn)

/-- At most one live session per peer id. -/
def atMostOnePerPeer (st : SessState) : Prop :=
  ∀ p : String, st.connections.countP (fun e => decide (e.peer = p)) ≤ 1

/-- Removing the first match of `p` lowers the `p`-count by exactly one. -/
theorem countP_eraseP_succ {α : Type} (p : α → Bool) (l : List α)
    (h : l.any p = true) : (l.eraseP p).countP p + 1 = l.countP p := by
  induction l with
  | nil => simp at h
  | cons x xs ih =>
    by_cases hx : p x = true
    · simp [List.eraseP_cons, hx, List.countP_cons]
    · have hxs : xs.any p = true := by
        simp only [List.any_cons, hx, Bool.false_or] at h
        exact h
      simp [List.eraseP_cons, hx, List.countP_cons, ih hxs]

/-- Core step lemma: a serialized connection attempt (duplicate check
immediately followed by the connection's open) keeps the pending set
empty, leaves exactly one live session for the attempted peer id, and
preserves the one-session-per-peer invariant. -/
theorem checkThenOpen_count (st : SessState) (c : Conn) (probeOk : Bool)
    (hp : st.pending = []) (hinv : atMostOnePerPeer st) :
    (checkThenOpen st c probeOk).pending = []
    ∧ (checkThenOpen st c probeOk).connections.countP
        (fun e => decide (e.peer = c.peer)) = 1
    ∧ atMostOnePerPeer (checkThenOpen st c probeOk) := by
  by_cases hAny : st.connections.any (fun e => e.peer = c.peer) = true
  · cases probeOk with
    | true =>
      have hco : checkThenOpen st c true = st := by
        simp [checkThenOpen, sessStep, hAny, hp]
      have hcount : st.connections.countP (fun e => decide (e.peer = c.peer)) = 1 := by
        have h1 : 0 < st.connections.countP (fun e => decide (e.peer = c.peer)) := by
          rw [List.countP_pos_iff]
          obtain ⟨x, hx, hpx⟩ := List.any_eq_true.mp hAny
          exact ⟨x, hx, by simpa using hpx⟩
        have h2 := hinv c.peer
        omega
      rw [hco]
      exact ⟨hp, hcount, hinv⟩
    | false =>
      have hco : checkThenOpen st c false =
          ⟨st.connections.eraseP (fun e => decide (e.peer = c.peer)) ++ [c],
           st.handshakeCompleted.filter (fun q => ¬ (q = c.peer)), []⟩ := by
        simp [checkThenOpen, sessStep, hAny, hp]
      have hcount1 : st.connections.countP (fun e => decide (e.peer = c.peer)) = 1 := by
        have h1 : 0 < st.connections.countP (fun e => decide (e.peer = c.peer)) := by
          rw [List.countP_pos_iff]
          obtain ⟨x, hx, hpx⟩ := List.any_eq_true.mp hAny
          exact ⟨x, hx, by simpa using hpx⟩
        have h2 := hinv c.peer
        omega
      have herase := countP_eraseP_succ (fun e => decide (e.peer = c.peer))
        st.connections hAny
      rw [hco]
      have hcc : (if (decide (c.peer = c.peer) : Bool) = true then 1 else 0) = 1 := by
        simp
      refine ⟨rfl, ?_, ?_⟩
      · have hzero : List.countP (fun e => decide (e.peer = c.peer))
            (List.eraseP (fun e => decide (e.peer = c.peer)) st.connections) = 0 := by
          omega
        simp [List.countP_append, hzero]
      · intro q
        simp only [List.countP_append, List.countP_cons, List.countP_nil]
        by_cases hq : q = c.peer
        · subst hq
          rw [hcc]
          omega
        · have hle : (st.connections.eraseP
              (fun e => decide (e.peer = c.peer))).countP
              (fun e => decide (e.peer = q)) ≤
              st.connections.countP (fun e => decide (e.peer = q)) :=
            (List.eraseP_sublist st.connections).countP_le _
          have hcq : (if (decide (c.peer = q) : Bool) = true then 1 else 0) = 0 := by
            simp [Ne.symm hq]
          rw [hcq]
          have := hinv q
          omega
  · have hco : checkThenOpen st c probeOk =
        ⟨st.connections ++ [c], st.handshakeCompleted, []⟩ := by
      simp [checkThenOpen, sessStep, hAny, hp]
    have hAnyF : st.connections.any (fun e => decide (e.peer = c.peer)) = false := by
      revert hAny
      cases st.connections.any (fun e => decide (e.peer = c.peer)) <;> simp
    have hcount0 : st.connections.countP (fun e => decide (e.peer = c.peer)) = 0 := by
      rw [List.countP_eq_zero]
      intro a ha
      have := List.any_eq_false.mp hAnyF a ha
      simpa using this
    rw [hco]
    have hcc : (if (decide (c.peer = c.peer) : Bool) = true then 1 else 0) = 1 := by
      simp
    refine ⟨rfl, ?_, ?_⟩
    · simp [List.countP_append, hcount0]
    · intro q
      simp only [List.countP_append, List.countP_cons, List.countP_nil]
      by_cases hq : q = c.peer
      · subst hq
        rw [hcc]
        omega
      · have hcq : (if (decide (c.peer = q) : Bool) = true then 1 else 0) = 0 := by
          simp [Ne.symm hq]
        rw [hcq]
        have := hinv q
        omega

end Spellcast

namespace Spellcast

/-- Claim C5, counterexample: two inbound connections to peer id "p" are
both duplicate-checked before either channel opens (a possible interleaving
on the event timeline, since `handleConnection` only guards at call time
and the `open` callback pushes unconditionally); afterwards the session
table holds two live sessions for "p", so "exactly one live session
survives" fails on this reachable state. -/
theorem sessionRace_interleaved_counterexample :
    (([SessEvent.check ⟨"p", 1⟩ true, SessEvent.check ⟨"p", 2⟩ true,
       SessEvent.openEv ⟨"p", 1⟩, SessEvent.openEv ⟨"p", 2⟩].foldl sessStep
       ⟨[], [], []⟩).connections.countP (fun e => decide (e.peer = "p"))) = 2 := by
  decide

/-- Claim C5 (amended): when a connection attempt finds an existing session
to the same peer id, a responsive probe leaves the state unchanged and the
new connection is closed without ever being added; an unresponsive probe
removes the existing session (and clears its handshake-completed marker)
and admits the new connection; `connectToPeer` on a live duplicate returns
the existing session without creating a new one. Provided each admitted
connection's open fires before the next attempt to any peer is checked
(serialized attempts), at most one live session per peer id is invariant,
and two serialized racing attempts to the same peer id leave exactly one
live session. Under interleaved checks the invariant can be violated (see
the counterexample). -/
theorem sessionReconcile_spec :
    (∀ (st : SessState) (c : Conn),
        st.connections.any (fun e => e.peer = c.peer) = true →
        sessStep st (.check c true) = st)
    ∧ (∀ (st : SessState) (c : Conn), c ∉ st.pending →
        sessStep st (.openEv c) = st)
    ∧ (∀ (st : SessState) (c : Conn),
        st.connections.any (fun e => e.peer = c.peer) = true →
        (sessStep st (.check c false)).connections =
          st.connections.eraseP (fun e => decide (e.peer = c.peer))
        ∧ c.peer ∉ (sessStep st (.check c false)).handshakeCompleted
        ∧ c ∈ (sessStep st (.check c false)).pending)
    ∧ (∀ (st : SessState) (c : Conn) (probeOk : Bool),
        st.pending = [] → atMostOnePerPeer st →
        atMostOnePerPeer (checkThenOpen st c probeOk)
        ∧ (checkThenOpen st c probeOk).pending = []
        ∧ (checkThenOpen st c probeOk).connections.countP
            (fun e => decide (e.peer = c.peer)) = 1)
    ∧ (∀ (st : SessState) (c1 c2 : Conn) (pr1 pr2 : Bool),
        st.pending = [] → atMostOnePerPeer st → c1.peer = c2.peer →
        (checkThenOpen (checkThenOpen st c1 pr1) c2 pr2).connections.countP
          (fun e => decide (e.peer = c2.peer)) = 1)
    ∧ (∀ (st : SessState) (peerId : String) (pr2 : Bool) (nc : Conn),
        st.connections.any (fun e => e.peer = peerId) = true →
        connectToPeerReconcile st peerId true pr2 nc = (st, none)) := by
  refine ⟨?_, ?_, ?_, ?_, ?_, ?_⟩
  · intro st c h
    simp [sessStep, h]
  · intro st c h
    simp [sessStep, h]
  · intro st c h
    refine ⟨by simp [sessStep, h], by simp [sessStep, h], by simp [sessStep, h]⟩
  · intro st c probeOk hp hinv
    have h := checkThenOpen_count st c probeOk hp hinv
    exact ⟨h.2.2, h.1, h.2.1⟩
  · intro st c1 c2 pr1 pr2 hp hinv hpeer
    have h1 := checkThenOpen_count st c1 pr1 hp hinv
    have h2 := checkThenOpen_count (checkThenOpen st c1 pr1) c2 pr2 h1.1 h1.2.2
    exact h2.2.1
  · intro st peerId pr2 nc h
    simp [connectToPeerReconcile, h]

/-- Witness for the amended claim C5: a single serialized attempt to peer
"p" from the empty session table leaves exactly one live session for "p". -/
theorem sessionReconcile_spec_witness :
    (checkThenOpen ⟨[], [], []⟩ ⟨"p", 1⟩ true).connections.countP
      (fun e => decide (e.peer = "p")) = 1 := by
  exact (sessionReconcile_spec.2.2.2.1 ⟨[], [], []⟩ ⟨"p", 1⟩ true rfl
    (fun q => by simp)).2.2

end Spellcast

namespace Spellcast

/-! ## Message distribution engine (tweet-manager.js)

Inbound message payloads are dynamic JavaScript objects; their field values
are modelled by a small value type carrying JS truthiness, with `Option`
for absent (or undefined-valued) fields. -/

/-- A dynamic JS value as inspected by the tweet validation code: a string,
a number (integral timestamps; this core never produces fractional ones),
or any other value, of which only the JS truthiness is relevant (e.g.
`other false` is null / undefined-in-an-array, `other true` a plain
object). -/
inductive JVal where
  | str (s : String)
  | num (n : Int)
  | other (truthyFlag : Bool)
deriving Repr, DecidableEq

/-- JS truthiness of a value. -/
def JVal.truthy : JVal → Bool
  | .str s => ¬ (s = "")
  | .num n => ¬ (n = 0)
  | .other b => b

/-- JS truthiness of a field access (absent field = undefined = falsy). -/
def jtruthy : Option JVal → Bool
  | none => false
  | some v => v.truthy

/-- `typeof v === 'string'` for a field access. -/
def isStr : Option JVal → Bool
  | some (.str _) => true
  | _ => false

/-- `typeof v === 'number'` for a field access. -/
def isNum : Option JVal → Bool
  | some (.num _) => true
  | _ => false

/-- Number of UTF-16 code units of a character (JS `String.length` counts
code units). -/
def utf16Len (c : Char) : Nat :=
  if c.toNat < 65536 then 1 else 2

/-- JS `s.length`: the number of UTF-16 code units. -/
def jsLength (s : String) : Nat :=
  (s.data.map utf16Len).sum

/-- `.length` of a string-valued field (callers only use it after the
string type check). -/
def strFieldLen : Option JVal → Nat
  | some (.str s) => jsLength s
  | _ => 0

/-- Numeric value of a number-valued field (callers only use it after the
number type check). -/
def numVal : Option JVal → Int
  | some (.num n) => n
  | _ => 0

/-- String coercion of a field value as performed by JS template literals;
for `other` values the codebase only ever reaches this with `null`, so the
coercion of other non-string non-number values is collapsed to "null". -/
def jvalTemplateStr : Option JVal → String
  | none => "undefined"
  | some (.str s) => s
  | some (.num n) => toString n
  | some (.other _) => "null"

/-- An inbound tweet object as inspected by `validateTweet`: the seven
recognized properties (`VALID_TWEET_PROPS`) plus the names of any own
properties outside the recognized schema. A field set to `none` models an
absent (or undefined-valued) key, which the validation code cannot
distinguish. -/
structure TweetObj where
  id : Option JVal := none
  username : Option JVal := none
  content : Option JVal := none
  timestamp : Option JVal := none
  mediaId : Option JVal := none
  mediaThumbnail : Option JVal := none
  mediaType : Option JVal := none
  extraProps : List String := []
deriving Repr, DecidableEq

/-- `this.MAX_TWEET_LENGTH`. -/
def MAX_TWEET_LENGTH : Nat := 1000

/-- `this.MAX_TWEETS_STORAGE`. -/
def MAX_TWEETS_STORAGE : Nat := 1000

/-- `TweetManager.validateTweet(tweet)` with `Date.now()` made explicit.
Follows the source line by line; `extraProps ≠ []` is the
`Object.keys`-outside-`VALID_TWEET_PROPS` rejection. -/
def validateTweet (now : Int) (t : TweetObj) : Bool :=
  if !jtruthy t.content && !jtruthy t.mediaId then false
  else if !jtruthy t.username || !jtruthy t.timestamp then false
  else if !isStr t.username || (jtruthy t.content && !isStr t.content)
      || !isNum t.timestamp then false
  else if jtruthy t.content
      && (strFieldLen t.content == 0 || decide (MAX_TWEET_LENGTH < strFieldLen t.content))
    then false
  else if jtruthy t.mediaId
      && (!isStr t.mediaId || !isStr t.mediaThumbnail || !isStr t.mediaType)
    then false
  else if !(t.extraProps = ([] : List String)) then false
  else if decide (now + 60000 < numVal t.timestamp) then false
  else true

/-! ### The hash-based unique id (`TweetManager.generateUniqueId`) -/

/-- UTF-16 code units of a character, as enumerated by JS `charCodeAt`. -/
def utf16Units (c : Char) : List Nat :=
  if c.toNat < 65536 then [c.toNat]
  else [55296 + (c.toNat - 65536) / 1024, 56320 + (c.toNat - 65536) % 1024]

/-- The code-unit sequence of a string. -/
def strCodeUnits (s : String) : List Nat :=
  s.data.flatMap utf16Units

/-- JS `ToInt32` (the effect of `x | 0`, `x & x`, and shift operands). -/
def toInt32 (x : Int) : Int :=
  (x + 2147483648) % 4294967296 - 2147483648

/-- One loop iteration: `hash = ((hash << 5) - hash) + char; hash = hash & hash`. -/
def hashStep (h : Int) (c : Nat) : Int :=
  toInt32 (toInt32 (h * 32) - h + c)

/-- The accumulated 32-bit hash of a string, starting from 0. -/
def hashString (s : String) : Int :=
  (strCodeUnits s).foldl hashStep 0

/-- JS `n.toString(16)` for a non-negative integer. -/
def natToHex (n : Nat) : String :=
  ⟨Nat.toDigits 16 n⟩

/-- `generateUniqueId` with the four template slots of
`username-timestamp-content-peerId` given as strings (the coercion to
string happens at the call sites). Returns `username-timestamp-hashHex`
where the hex is of `hash >>> 0`. -/
def rawUniqueId (username timestampStr content peerId : String) : String :=
  let dataToHash := username ++ "-" ++ timestampStr ++ "-" ++ content ++ "-" ++ peerId
  let hashHex := natToHex ((hashString dataToHash % 4294967296).toNat)
  username ++ "-" ++ timestampStr ++ "-" ++ hashHex

/-- `TweetManager.generateUniqueId(username, content, timestamp)` for a
string username and content and a numeric timestamp, with the local node
id `this.userManager.peerId` explicit. -/
def generateUniqueId (username content : String) (timestamp : Int) (peerId : String) : String :=
  rawUniqueId username (toString timestamp) content peerId

/-! ### Stored state -/

/-- A stored tweet object, as pushed by `addTweet`: the three payload
fields keep the dynamic values they arrived with, the id is the string
key under which the tweet is tracked, and the media fields are only
present when a truthy mediaId was supplied. -/
structure Tweet where
  username : Option JVal
  content : Option JVal
  timestamp : Option JVal
  id : String
  mediaId : Option JVal := none
  mediaThumbnail : Option JVal := none
  mediaType : Option JVal := none
deriving Repr, DecidableEq

/-- View a stored tweet as the object `validateTweet` inspects (addTweet
re-validates the object it is about to push). -/
def Tweet.toObj (t : Tweet) : TweetObj :=
  { id := some (.str t.id), username := t.username, content := t.content,
    timestamp := t.timestamp, mediaId := t.mediaId,
    mediaThumbnail := t.mediaThumbnail, mediaType := t.mediaType,
    extraProps := [] }

/-- Sort key: the numeric timestamp (`(a, b) => b.timestamp - a.timestamp`). -/
def tsOf (t : Tweet) : Int := numVal t.timestamp

/-- Stable insertion into a list sorted by descending timestamp. -/
def insertByTs (x : Tweet) : List Tweet → List Tweet
  | [] => [x]
  | y :: ys => if tsOf y ≤ tsOf x then x :: y :: ys else y :: insertByTs x ys

/-- `TweetManager.sortTweets`: stable sort, newest first. -/
def sortTweetsList (l : List Tweet) : List Tweet :=
  l.foldr insertByTs []

/-- `this.tweetRecipients` / `this.unsentTweets`: plain objects mapping
string keys to arrays of strings, as association lists. -/
abbrev StrListMap := List (String × List String)

/-- Object property read: `m[k]`, `none` when the key is absent. -/
def alookup (m : StrListMap) (k : String) : Option (List String) :=
  (List.find? (fun p => p.1 = k) m).map (fun p => p.2)

/-- Object property write: `m[k] = v`. -/
def aset (m : StrListMap) (k : String) (v : List String) : StrListMap :=
  (k, v) :: List.filter (fun p => ¬ (p.1 = k)) m

/-- `delete m[k]`. -/
def adelete (m : StrListMap) (k : String) : StrListMap :=
  List.filter (fun p => ¬ (p.1 = k)) m

/-- The recurring marking sequence
`if (!m[id]) m[id] = []; if (!m[id].includes(peer)) m[id].push(peer)`. -/
def markRecipient (m : StrListMap) (id peer : String) : StrListMap :=
  match alookup m id with
  | none => aset m id [peer]
  | some l => if peer ∈ l then m else aset m id (l ++ [peer])

/-- `if (m[peer]) m[peer] = m[peer].filter(i => i !== targetId)`. -/
def removeUnsent (m : StrListMap) (peer targetId : String) : StrListMap :=
  match alookup m peer with
  | none => m
  | some l => aset m peer (l.filter (fun i => ¬ (i = targetId)))

/-- `if (!m[peer]) m[peer] = []; if (!m[peer].includes(id)) m[peer].push(id)`. -/
def addUnsent (m : StrListMap) (peer targetId : String) : StrListMap :=
  match alookup m peer with
  | none => aset m peer [targetId]
  | some l => if targetId ∈ l then m else aset m peer (l ++ [targetId])

/-- The TweetManager state: the tweet log, the recipient-set table, the
per-peer unsent queues, and the message rate limiter. -/
structure TMState where
  tweets : List Tweet
  tweetRecipients : StrListMap
  unsentTweets : StrListMap
  rl : RLMap
deriving Repr, DecidableEq

/-- Outbound payloads produced by the tweet manager. -/
inductive OutMsg where
  | tweetMsg (username : String) (content : Option String) (timestamp : Int)
      (id : String) (media : Option (String × String × String))
  | tweetAck (id : String)
  | allTweets (batch : List Tweet)
  | bulkTweetAck (ids : List String)
deriving Repr, DecidableEq

/-- Observable effects: a payload sent over a peer connection, the two
persistence writes (`saveTweets` persists the log, `saveDistState` the
recipient/unsent tables; the source's `saveTweets()` does both), an
external media deletion, and the UI notification callback. -/
inductive Effect where
  | send (peer : String) (msg : OutMsg)
  | saveTweets
  | saveDistState
  | deleteMedia (mediaId : String)
  | notifyTweetsUpdated
deriving Repr, DecidableEq

end Spellcast

namespace Spellcast

/-! ### Operations of the tweet manager -/

/-- `TweetManager.saveTweets()`: trims the log to the storage cap before
persisting, then persists the log and the distribution state. -/
def saveTweetsOp (st : TMState) : TMState × List Effect :=
  let st' := if MAX_TWEETS_STORAGE < st.tweets.length
    then { st with tweets := st.tweets.take MAX_TWEETS_STORAGE } else st
  (st', [Effect.saveTweets, Effect.saveDistState])

/-- The stored tweet object constructed by `addTweet`: media fields only
attached when mediaId is truthy. -/
def mkStoredTweet (username content timestamp : Option JVal) (tweetId : String)
    (mediaId mediaThumbnail mediaType : Option JVal) : Tweet :=
  if jtruthy mediaId then
    ⟨username, content, timestamp, tweetId, mediaId, mediaThumbnail, mediaType⟩
  else ⟨username, content, timestamp, tweetId, none, none, none⟩

/-- `if (!this.tweetRecipients[tweetId]) this.tweetRecipients[tweetId] = []`. -/
def recipInit (m : StrListMap) (k : String) : StrListMap :=
  match alookup m k with
  | none => aset m k []
  | some _ => m

/-- The recipient seeding of `addTweet`: initialize the entry, then
overwrite it with a copy of the provided recipients array if one was
given. -/
def recipSeed (m : StrListMap) (tweetId : String) (recipients : Option (List String)) :
    StrListMap :=
  match recipients with
  | some rs => aset (recipInit m tweetId) tweetId rs
  | none => recipInit m tweetId

/-- One unsent-queue cleanup pass of the eviction loop:
`unsentTweets[peerId] = unsentTweets[peerId].filter(id => id !== removedTweet.id)`
for every peer. -/
def scrubUnsent (m : StrListMap) (tid : String) : StrListMap :=
  m.map (fun p => (p.1, p.2.filter (fun i => ¬ (i = tid))))

/-- The over-cap eviction of `addTweet`: once the (sorted) log exceeds
`MAX_TWEETS_STORAGE`, the entries beyond the cap are spliced off and their
recipient entries and unsent-queue occurrences are cleaned up. -/
def evictExcess (st : TMState) : TMState :=
  if MAX_TWEETS_STORAGE < st.tweets.length then
    { st with
      tweets := st.tweets.take MAX_TWEETS_STORAGE,
      tweetRecipients := (st.tweets.drop MAX_TWEETS_STORAGE).foldl
        (fun m t => adelete m t.id) st.tweetRecipients,
      unsentTweets := (st.tweets.drop MAX_TWEETS_STORAGE).foldl
        (fun m t => scrubUnsent m t.id) st.unsentTweets }
  else st

/-- The body of `addTweet` once the tweet id has been computed: duplicate
check, object construction, re-validation (`throw` on failure), push,
recipient seeding, sort, eviction, save, notify. -/
def addTweetWithId (now : Int) (st : TMState)
    (username content timestamp : Option JVal) (recipients : Option (List String))
    (tweetId : String) (mediaId mediaThumbnail mediaType : Option JVal) :
    Except Unit (String × TMState × List Effect) :=
  if st.tweets.any (fun t => t.id = tweetId) then
    .ok (tweetId, st, [])
  else if ¬ validateTweet now
      (mkStoredTweet username content timestamp tweetId
        mediaId mediaThumbnail mediaType).toObj then
    .error ()
  else
    .ok (tweetId,
      (saveTweetsOp (evictExcess
        { st with
          tweets := sortTweetsList (st.tweets ++
            [mkStoredTweet username content timestamp tweetId
              mediaId mediaThumbnail mediaType]),
          tweetRecipients := recipSeed st.tweetRecipients tweetId recipients })).1,
      (saveTweetsOp (evictExcess
        { st with
          tweets := sortTweetsList (st.tweets ++
            [mkStoredTweet username content timestamp tweetId
              mediaId mediaThumbnail mediaType]),
          tweetRecipients := recipSeed st.tweetRecipients tweetId recipients })).2
        ++ [Effect.notifyTweetsUpdated])

/-- `TweetManager.addTweet(username, content, timestamp, recipients, id,
mediaId, mediaThumbnail, mediaType)` (with `Date.now()` and
`this.userManager.peerId` explicit):
`const tweetId = id || this.generateUniqueId(...)`, then the body. -/
def addTweet (now : Int) (peerId : String) (st : TMState)
    (username content timestamp : Option JVal) (recipients : Option (List String))
    (id : Option String) (mediaId mediaThumbnail mediaType : Option JVal) :
    Except Unit (String × TMState × List Effect) :=
  addTweetWithId now st username content timestamp recipients
    (match id with
      | some s =>
          if s = "" then
            rawUniqueId (jvalTemplateStr username) (jvalTemplateStr timestamp)
              (jvalTemplateStr content) peerId
          else s
      | none =>
          rawUniqueId (jvalTemplateStr username) (jvalTemplateStr timestamp)
            (jvalTemplateStr content) peerId)
    mediaId mediaThumbnail mediaType

/-- `TweetManager.deleteTweet(tweetId)`: media cleanup for the targeted
tweet, removal from the log, and persistence only when something was
removed. Returns the success flag, the new state, and the effects. -/
def deleteTweet (st : TMState) (tweetId : String) : Bool × TMState × List Effect :=
  let tweetToDelete := st.tweets.find? (fun t => t.id = tweetId)
  let mediaEffs := match tweetToDelete with
    | some t => if jtruthy t.mediaId then [Effect.deleteMedia (jvalTemplateStr t.mediaId)] else []
    | none => []
  let newTweets := st.tweets.filter (fun t => ¬ (t.id = tweetId))
  if ¬ (newTweets.length = st.tweets.length) then
    let saved := saveTweetsOp { st with tweets := newTweets }
    (true, saved.1, mediaEffs ++ saved.2)
  else
    (false, { st with tweets := newTweets }, mediaEffs)

/-- `TweetManager.deleteAllTweets()`. -/
def deleteAllTweets (st : TMState) : Nat × TMState × List Effect :=
  let mediaIds := (st.tweets.filter (fun t => jtruthy t.mediaId)).map
    (fun t => jvalTemplateStr t.mediaId)
  let deletedCount := st.tweets.length
  let st1 : TMState := { st with tweets := [], tweetRecipients := [], unsentTweets := [] }
  let saved := saveTweetsOp st1
  (deletedCount, saved.1,
    mediaIds.map Effect.deleteMedia ++ saved.2
      ++ [Effect.saveDistState, Effect.notifyTweetsUpdated])

/-- One connection of the `broadcastTweet` fan-out loop: a successful
`conn.send` marks the peer as recipient (when a recipient entry exists and
does not yet name it) and clears the id from that peer's unsent queue; a
throwing send enqueues the id into that peer's unsent queue instead. -/
def broadcastStep (tweetId : String) (sendOk : String → Bool) (payload : OutMsg)
    (acc : TMState × List Effect) (peer : String) : TMState × List Effect :=
  let st := acc.1
  if sendOk peer then
    let st' :=
      match alookup st.tweetRecipients tweetId with
      | some l =>
          if peer ∈ l then st
          else { st with tweetRecipients := aset st.tweetRecipients tweetId (l ++ [peer]),
                         unsentTweets := removeUnsent st.unsentTweets peer tweetId }
      | none => st
    (st', acc.2 ++ [Effect.send peer payload])
  else
    ({ st with unsentTweets := addUnsent st.unsentTweets peer tweetId }, acc.2)

/-- `TweetManager.broadcastTweet(content, timestamp, tweetId, ...)`: sends
the tweet payload once to every open connection (`sendOk` tells which
sends succeed) and saves the distribution state. -/
def broadcastTweet (st : TMState) (username : String) (content : Option String)
    (timestamp : Int) (tweetId : String) (media : Option (String × String × String))
    (connections : List String) (sendOk : String → Bool) : TMState × List Effect :=
  let payload := OutMsg.tweetMsg username content timestamp tweetId media
  let res := connections.foldl (broadcastStep tweetId sendOk payload) (st, [])
  (res.1, res.2 ++ [Effect.saveDistState])

/-- `this.MESSAGE_MAX_COUNT` and `this.MESSAGE_TIME_WINDOW_MS`. -/
def MESSAGE_MAX_COUNT : Nat := 10

def MESSAGE_TIME_WINDOW_MS : Int := 60000

/-- String coercion of the content argument inside createTweet's id
template (`${content}` renders null as "null"). -/
def contentTemplateStr : Option String → String
  | some s => s
  | none => "null"

/-- The content value as passed from createTweet into addTweet (a string,
or JS null when absent). -/
def contentJVal : Option String → Option JVal
  | some s => some (.str s)
  | none => some (.other false)

/-- The mediaId value passed into addTweet (`let mediaId = null` when no
media was processed). -/
def mediaIdJVal : Option (String × String × String) → Option JVal
  | some m => some (.str m.1)
  | none => some (.other false)

def mediaThumbJVal : Option (String × String × String) → Option JVal
  | some m => some (.str m.2.1)
  | none => some (.other false)

def mediaTypeJVal : Option (String × String × String) → Option JVal
  | some m => some (.str m.2.2)
  | none => some (.other false)

/-- `TweetManager.createTweet(content, mediaFile)`, with the externally
processed media metadata (id, thumbnail, type), the user info, the
connected peer ids and the per-peer send outcomes as inputs. The first
component is the returned tweet id or the thrown error; the state is
returned in all cases (a throw after the rate-limiter check still leaves
the limiter's record behind). -/
def createTweet (now : Int) (st : TMState) (content : Option String)
    (media : Option (String × String × String)) (username peerId : String)
    (connections : List String) (sendOk : String → Bool) :
    Except String String × TMState × List Effect :=
  if jtruthy (content.map JVal.str) = false ∧ media = none then
    (.error "Tweet must have content or media", st, [])
  else if content.elim false (fun s => MAX_TWEET_LENGTH < jsLength s) then
    (.error "Tweet content exceeds maximum length", st, [])
  else
    let rlRes := rlIsAllowed now "message" peerId MESSAGE_MAX_COUNT MESSAGE_TIME_WINDOW_MS st.rl
    let st0 := { st with rl := rlRes.2 }
    if rlRes.1 = false then
      (.error "Message rate limit exceeded", st0, [])
    else
      match addTweet now peerId st0 (some (.str username)) (contentJVal content)
          (some (.num now)) (some connections)
          (some (generateUniqueId username (contentTemplateStr content) now peerId))
          (mediaIdJVal media) (mediaThumbJVal media) (mediaTypeJVal media) with
      | .error _ => (.error "Invalid tweet data", st0, [])
      | .ok (tid, st1, effs1) =>
        let bres := broadcastTweet st1 username content now tid media
          connections sendOk
        (.ok tid, bres.1, effs1 ++ bres.2 ++ [Effect.notifyTweetsUpdated])

/-- JS object-key coercion of a message id value (`m[v]`); for `other`
values the codebase only ever reaches this with null. -/
def jvalKeyStr : JVal → String
  | .str s => s
  | .num n => toString n
  | .other _ => "null"

/-- The id under which an inbound tweet is processed:
`data.id || this.generateUniqueId(data.username, data.content, data.timestamp)`. -/
def inboundTweetId (peerId : String) (data : TweetObj) : String :=
  match data.id with
  | some v =>
      if v.truthy then jvalKeyStr v
      else rawUniqueId (jvalTemplateStr data.username) (jvalTemplateStr data.timestamp)
        (jvalTemplateStr data.content) peerId
  | none =>
      rawUniqueId (jvalTemplateStr data.username) (jvalTemplateStr data.timestamp)
        (jvalTemplateStr data.content) peerId

/-- The tweet object rebuilt by `handleTweetMessage` from the four copied
fields: media fields and unrecognized wire fields are discarded. -/
def strippedInbound (data : TweetObj) : TweetObj :=
  { username := data.username, content := data.content,
    timestamp := data.timestamp, id := data.id }

/-- `TweetManager.handleTweetMessage(data, conn)`: rebuilds the tweet from
the four copied fields, validates, stores, marks the sender as recipient,
and replies with a single ack; invalid data is dropped with no state
change and no reply. -/
def handleTweetMessage (now : Int) (peerId : String) (st : TMState)
    (data : TweetObj) (sender : String) : TMState × List Effect :=
  if ¬ validateTweet now (strippedInbound data) then (st, [])
  else
    match addTweet now peerId st data.username data.content data.timestamp
        none (some (inboundTweetId peerId data)) none none none with
    | .error _ => (st, [])
    | .ok (_, st1, effs1) =>
      ({ st1 with tweetRecipients :=
          markRecipient st1.tweetRecipients (inboundTweetId peerId data) sender },
       effs1 ++ [Effect.send sender (OutMsg.tweetAck (inboundTweetId peerId data)),
        Effect.saveDistState, Effect.notifyTweetsUpdated])

/-- `TweetManager.handleTweetAckMessage(data, conn)`: everything is
guarded by `data.id && this.tweetRecipients[data.id] &&
!this.tweetRecipients[data.id].includes(conn.peer)`. -/
def handleTweetAckMessage (st : TMState) (dataId : Option JVal) (sender : String) :
    TMState × List Effect :=
  match dataId with
  | none => (st, [])
  | some v =>
    if v.truthy then
      let key := jvalKeyStr v
      match alookup st.tweetRecipients key with
      | none => (st, [])
      | some l =>
        if sender ∈ l then (st, [])
        else
          ({ st with tweetRecipients := aset st.tweetRecipients key (l ++ [sender]),
                     unsentTweets := removeUnsent st.unsentTweets sender key },
           [Effect.saveDistState])
    else (st, [])

/-- Per-id body of `handleBulkTweetAckMessage`: the recipient marking is
conditional on an existing entry not yet naming the sender, but the
unsent-queue removal is unconditional. -/
def bulkAckStep (sender : String) (st : TMState) (v : JVal) : TMState :=
  let key := jvalKeyStr v
  let recip := match alookup st.tweetRecipients key with
    | none => st.tweetRecipients
    | some l => if sender ∈ l then st.tweetRecipients else aset st.tweetRecipients key (l ++ [sender])
  { st with tweetRecipients := recip,
            unsentTweets := removeUnsent st.unsentTweets sender key }

/-- `TweetManager.handleBulkTweetAckMessage(data, conn)`; `none` models a
missing or non-array `data.ids`. -/
def handleBulkTweetAckMessage (st : TMState) (dataIds : Option (List JVal))
    (sender : String) : TMState × List Effect :=
  match dataIds with
  | none => (st, [])
  | some ids => (ids.foldl (bulkAckStep sender) st, [Effect.saveDistState])

/-- Per-tweet body of `handleAllTweetsMessage` (the inner try/catch skips
a tweet whose `addTweet` throws without aborting the batch). -/
def allTweetsStep (now : Int) (peerId sender : String)
    (acc : TMState × List String × List Effect) (tw : TweetObj) :
    TMState × List String × List Effect :=
  let (st, validIds, effs) := acc
  if ¬ validateTweet now tw then (st, validIds, effs)
  else
    let tweetId := inboundTweetId peerId tw
    match addTweet now peerId st tw.username tw.content tw.timestamp
        none (some tweetId) none none none with
    | .error _ => (st, validIds, effs)
    | .ok (_, st1, effs1) =>
      ({ st1 with tweetRecipients := markRecipient st1.tweetRecipients tweetId sender },
       validIds ++ [tweetId], effs ++ effs1)

/-- `TweetManager.handleAllTweetsMessage(data, conn)`; `none` models a
missing or non-array `data.tweets`. -/
def handleAllTweetsMessage (now : Int) (peerId : String) (st : TMState)
    (tweets : Option (List TweetObj)) (sender : String) : TMState × List Effect :=
  match tweets with
  | none => (st, [])
  | some l =>
    let res := l.foldl (allTweetsStep now peerId sender) (st, [], [])
    let ackEffs := if res.2.1 = [] then []
      else [Effect.send sender (OutMsg.bulkTweetAck res.2.1)]
    (res.1, res.2.2 ++ ackEffs ++ [Effect.saveDistState, Effect.notifyTweetsUpdated])

/-- The `onPeerConnected` handler registered by the TweetManager
constructor: ensures an unsent entry for the peer and enqueues every
stored tweet whose recipient set does not contain the peer. (The delayed
`sendSelectiveTweets` call is a separate step.) -/
def onPeerConnectedHandler (st : TMState) (peer : String) : TMState :=
  let unsent1 := match alookup st.unsentTweets peer with
    | none => aset st.unsentTweets peer []
    | some _ => st.unsentTweets
  let unsent2 := st.tweets.foldl (fun (m : StrListMap) (t : Tweet) =>
      let needsSend : Bool := match alookup st.tweetRecipients t.id with
        | none => true
        | some l => decide (peer ∉ l)
      if needsSend then
        match alookup m peer with
        | some l => if t.id ∈ l then m else aset m peer (l ++ [t.id])
        | none => aset m peer [t.id]
      else m) unsent1
  { st with unsentTweets := unsent2 }

/-- `BATCH_SIZE` in `sendSelectiveTweets`. -/
def BATCH_SIZE : Nat := 20

/-- The batching loop `for (i = 0; i < n; i += BATCH_SIZE) slice(i, i+20)`. -/
def chunks20 : List Tweet → List (List Tweet)
  | [] => []
  | x :: xs => (x :: xs.take 19) :: chunks20 (xs.drop 19)
termination_by l => l.length
decreasing_by simp [List.length_drop]; omega

/-- The condition `!this.tweetRecipients[id] || !this.tweetRecipients[id].includes(peerId)`:
the peer is not a confirmed recipient of the id. -/
def needsSendId (st : TMState) (peer id : String) : Bool :=
  match alookup st.tweetRecipients id with
  | none => true
  | some l => decide (peer ∉ l)

/-- The initial copy of the peer's unsent queue
(`if (unsentTweets[peerId] && length > 0) copy else []`). -/
def selUnsentBase (st : TMState) (peer : String) : List String :=
  match alookup st.unsentTweets peer with
  | some l => if 0 < l.length then l else []
  | none => []

/-- The id list `unsentTweetIds` computed at the top of
`sendSelectiveTweets`: a copy of the peer's unsent queue extended with the
id of every stored tweet whose recipient set does not contain the peer. -/
def selUnsentIds (st : TMState) (peer : String) : List String :=
  st.tweets.foldl (fun (acc : List String) (t : Tweet) =>
      if needsSendId st peer t.id = true ∧ t.id ∉ acc then acc ++ [t.id] else acc)
    (selUnsentBase st peer)

/-- `tweetsToSend`: the stored tweets whose id is in `unsentTweetIds`. -/
def selTweetsToSend (st : TMState) (peer : String) : List Tweet :=
  st.tweets.filter (fun t => t.id ∈ selUnsentIds st peer)

/-- The per-tweet marking of a successfully sent batch: add the peer to
the tweet's recipient set and drop the id from the peer's unsent queue. -/
def markBatch (peer : String) (s : TMState) (b : List Tweet) : TMState :=
  b.foldl (fun s t =>
    { s with tweetRecipients := markRecipient s.tweetRecipients t.id peer,
             unsentTweets := removeUnsent s.unsentTweets peer t.id }) s

/-- The re-queueing of a batch whose send threw: every member id is
(re-)added to the peer's unsent queue. -/
def requeueBatch (peer : String) (s : TMState) (b : List Tweet) : TMState :=
  b.foldl (fun s t =>
    { s with unsentTweets := addUnsent s.unsentTweets peer t.id }) s

/-- One batch of the staggered send loop; `batchOk` is whether the batch's
`conn.send` succeeded. -/
def selBatchStep (peer : String) (batchOk : Nat → Bool)
    (acc : TMState × List Effect × Nat) (batch : List Tweet) :
    TMState × List Effect × Nat :=
  let (st, effs, idx) := acc
  if batchOk idx then
    (markBatch peer st batch,
     effs ++ [Effect.send peer (OutMsg.allTweets batch), Effect.saveDistState],
     idx + 1)
  else
    (requeueBatch peer st batch, effs ++ [Effect.saveDistState], idx + 1)

/-- `TweetManager.sendSelectiveTweets(conn)`. -/
def sendSelectiveTweets (st : TMState) (peer : String) (batchOk : Nat → Bool) :
    TMState × List Effect :=
  if selUnsentIds st peer = [] then (st, [])
  else
    let res := (chunks20 (selTweetsToSend st peer)).foldl
      (selBatchStep peer batchOk) (st, [], 0)
    (res.1, res.2.1)

/-- The message ids an effect contributes to catch-up: the ids of an
`all_tweets` batch payload, nothing for any other effect. -/
def sentIdsOf (e : Effect) : List String :=
  match e with
  | Effect.send _ (OutMsg.allTweets b) => b.map (fun t => t.id)
  | _ => []

/-- All message ids carried by the catch-up batches of an effect list. -/
def catchupSentIds (effs : List Effect) : List String :=
  effs.foldr (fun e acc => sentIdsOf e ++ acc) []

end Spellcast

namespace Spellcast

/-! ### Claims about deleteTweet (C2, C10) -/

/-- Claim C2, counterexample: deleting the only stored message succeeds
and removes it from the log, but its recipient-set entry is NOT removed —
`deleteTweet` never touches `tweetRecipients`, contradicting the claim
that the entry is removed. -/
theorem deleteTweet_keepsRecipientEntry_counterexample :
    (deleteTweet ⟨[⟨some (.str "alice"), some (.str "hi"), some (.num 1000),
        "m1", none, none, none⟩], [("m1", ["p"])], [], []⟩ "m1").1 = true
    ∧ (deleteTweet ⟨[⟨some (.str "alice"), some (.str "hi"), some (.num 1000),
        "m1", none, none, none⟩], [("m1", ["p"])], [], []⟩ "m1").2.1.tweets = []
    ∧ alookup (deleteTweet ⟨[⟨some (.str "alice"), some (.str "hi"), some (.num 1000),
        "m1", none, none, none⟩], [("m1", ["p"])], [], []⟩ "m1").2.1.tweetRecipients "m1"
      = some ["p"] := by
  refine ⟨?_, ?_, ?_⟩ <;> decide

/-- Claim C2 (amended): for a message id present in a log within the
storage cap, deleteTweet removes exactly that message from the local log
and sends nothing over any peer connection, while the recipient-set table
(including the deleted message's own entry), every unsent queue, and the
rate limiter are left entirely unchanged. -/
theorem deleteTweet_localOnly_spec (st : TMState) (id : String)
    (hmem : st.tweets.any (fun t => t.id = id) = true)
    (hcap : st.tweets.length ≤ MAX_TWEETS_STORAGE) :
    (deleteTweet st id).1 = true
    ∧ (deleteTweet st id).2.1.tweets = st.tweets.filter (fun t => ¬ (t.id = id))
    ∧ (deleteTweet st id).2.1.tweetRecipients = st.tweetRecipients
    ∧ (deleteTweet st id).2.1.unsentTweets = st.unsentTweets
    ∧ (deleteTweet st id).2.1.rl = st.rl
    ∧ (∀ (p : String) (msg : OutMsg), Effect.send p msg ∉ (deleteTweet st id).2.2) := by
  have hlt : (st.tweets.filter (fun t => ¬ (t.id = id))).length < st.tweets.length := by
    rw [List.length_filter_lt_length_iff_exists]
    obtain ⟨t, ht, hid⟩ := List.any_eq_true.mp hmem
    exact ⟨t, ht, by simpa using hid⟩
  have hne : ¬ ((st.tweets.filter (fun t => ¬ (t.id = id))).length = st.tweets.length) :=
    Nat.ne_of_lt hlt
  have htrim : ¬ (MAX_TWEETS_STORAGE <
      (st.tweets.filter (fun t => ¬ (t.id = id))).length) := by
    have := List.length_filter_le (fun t => ¬ (t.id = id)) st.tweets
    omega
  unfold deleteTweet saveTweetsOp
  simp only [hne, htrim, if_neg, if_false, not_false_eq_true, if_true]
  refine ⟨trivial, trivial, trivial, trivial, trivial, ?_⟩
  intro p msg
  cases hfind : st.tweets.find? (fun t => t.id = id) with
  | none => simp
  | some t =>
    by_cases hmedia : jtruthy t.mediaId = true
    · simp [hmedia]
    · simp [hmedia]

/-- Witness for the amended claim C2 at a concrete one-message state. -/
theorem deleteTweet_localOnly_spec_witness :
    (deleteTweet ⟨[⟨some (.str "bob"), some (.str "yo"), some (.num 5),
        "w2", none, none, none⟩], [("w2", ["q"])], [("q", ["w2"])], []⟩ "w2").1 = true
    ∧ (deleteTweet ⟨[⟨some (.str "bob"), some (.str "yo"), some (.num 5),
        "w2", none, none, none⟩], [("w2", ["q"])], [("q", ["w2"])], []⟩ "w2").2.1.unsentTweets
      = [("q", ["w2"])] := by
  have h := deleteTweet_localOnly_spec
    ⟨[⟨some (.str "bob"), some (.str "yo"), some (.num 5),
        "w2", none, none, none⟩], [("w2", ["q"])], [("q", ["w2"])], []⟩ "w2"
    (by decide) (by decide)
  exact ⟨h.1, h.2.2.2.1⟩

/-- Claim C10: deleteTweet returns true exactly when a message with the
given id was present; on a missing id it returns false, leaves the whole
state unchanged, and performs no persistence write (and no effect at all). -/
theorem deleteTweet_missing_noop_spec (st : TMState) (id : String) :
    ((deleteTweet st id).1 = true ↔ id ∈ st.tweets.map (fun t => t.id))
    ∧ (id ∉ st.tweets.map (fun t => t.id) →
        (deleteTweet st id).2.1 = st ∧ (deleteTweet st id).2.2 = []) := by
  constructor
  · constructor
    · intro htrue
      by_contra hmem
      have hfilter : st.tweets.filter (fun t => ¬ (t.id = id)) = st.tweets := by
        apply List.filter_eq_self.mpr
        intro t ht
        simp only [decide_eq_true_eq]
        intro hid
        exact hmem (by rw [← hid]; exact List.mem_map_of_mem _ ht)
      unfold deleteTweet at htrue
      simp only [hfilter] at htrue
      simp at htrue
    · intro hmem
      obtain ⟨t, ht, hid⟩ := List.mem_map.mp hmem
      have hlt : (st.tweets.filter (fun t => ¬ (t.id = id))).length < st.tweets.length := by
        rw [List.length_filter_lt_length_iff_exists]
        exact ⟨t, ht, by simp [hid]⟩
      have hne : ¬ ((st.tweets.filter (fun t => ¬ (t.id = id))).length = st.tweets.length) :=
        Nat.ne_of_lt hlt
      unfold deleteTweet
      simp only [hne, not_false_eq_true, if_true]
  · intro hmem
    have hfilter : st.tweets.filter (fun t => ¬ (t.id = id)) = st.tweets := by
      apply List.filter_eq_self.mpr
      intro t ht
      simp only [decide_eq_true_eq]
      intro hid
      exact hmem (by rw [← hid]; exact List.mem_map_of_mem _ ht)
    have hfind : st.tweets.find? (fun t => t.id = id) = none := by
      rw [List.find?_eq_none]
      intro t ht
      simp only [decide_eq_true_eq]
      intro hid
      exact hmem (by rw [← hid]; exact List.mem_map_of_mem _ ht)
    have hlen : (st.tweets.filter (fun t => ¬ (t.id = id))).length
        = st.tweets.length := by rw [hfilter]
    unfold deleteTweet
    rw [hfind, if_neg (not_not_intro hlen)]
    constructor
    · show ({ st with tweets := st.tweets.filter (fun t => ¬ (t.id = id)) } : TMState) = st
      rw [hfilter]
    · rfl

/-- Witness for claim C10: deleting an absent id from a one-message state
returns false with no state change and no effect. -/
theorem deleteTweet_missing_noop_spec_witness :
    (deleteTweet ⟨[⟨some (.str "bob"), some (.str "yo"), some (.num 5),
        "w3", none, none, none⟩], [], [], []⟩ "nope").1 = false
    ∧ (deleteTweet ⟨[⟨some (.str "bob"), some (.str "yo"), some (.num 5),
        "w3", none, none, none⟩], [], [], []⟩ "nope").2.2 = [] := by
  have h := deleteTweet_missing_noop_spec
    ⟨[⟨some (.str "bob"), some (.str "yo"), some (.num 5),
        "w3", none, none, none⟩], [], [], []⟩ "nope"
  refine ⟨?_, (h.2 (by decide)).2⟩
  have := h.1
  by_cases hb : (deleteTweet ⟨[⟨some (.str "bob"), some (.str "yo"), some (.num 5),
      "w3", none, none, none⟩], [], [], []⟩ "nope").1 = true
  · exact absurd (this.mp hb) (by decide)
  · simpa using hb

end Spellcast

namespace Spellcast

/-! ### Helper lemmas on the association-list maps and the sort -/

theorem alookup_aset (m : StrListMap) (k : String) (v : List String) :
    alookup (aset m k v) k = some v := by
  simp [alookup, aset]

theorem find?_filter_ne (m : StrListMap) (k k' : String) (h : ¬ (k' = k)) :
    List.find? (fun p => p.1 = k') (List.filter (fun p => ¬ (p.1 = k)) m)
      = List.find? (fun p => p.1 = k') m := by
  induction m with
  | nil => rfl
  | cons x xs ih =>
    by_cases hx : x.1 = k
    · have hx' : ¬ (x.1 = k') := by
        rw [hx]; intro hh; exact h hh.symm
      rw [List.filter_cons_of_neg (by simp [hx]),
          List.find?_cons_of_neg _ (by simp [hx']), ih]
    · by_cases hx' : x.1 = k'
      · rw [List.filter_cons_of_pos (by simp [hx]),
            List.find?_cons_of_pos _ (by simp [hx']),
            List.find?_cons_of_pos _ (by simp [hx'])]
      · rw [List.filter_cons_of_pos (by simp [hx]),
            List.find?_cons_of_neg _ (by simp [hx']),
            List.find?_cons_of_neg _ (by simp [hx']), ih]

theorem alookup_aset_ne (m : StrListMap) (k k' : String) (v : List String)
    (h : ¬ (k' = k)) : alookup (aset m k v) k' = alookup m k' := by
  unfold alookup aset
  rw [List.find?_cons_of_neg _
        (by simp only [decide_eq_true_eq]; exact fun hh => h hh.symm),
      find?_filter_ne m k k' h]

theorem markRecipient_mem (m : StrListMap) (id peer : String) :
    peer ∈ ((alookup (markRecipient m id peer) id).getD []) := by
  unfold markRecipient
  cases h : alookup m id with
  | none => simp [alookup_aset]
  | some l =>
    by_cases hp : peer ∈ l
    · simp [hp, h]
    · simp [hp, alookup_aset]

theorem markRecipient_mem_preserved (m : StrListMap) (id peer : String)
    (id0 q : String) (hq : q ∈ ((alookup m id0).getD [])) :
    q ∈ ((alookup (markRecipient m id peer) id0).getD []) := by
  unfold markRecipient
  by_cases hid : id0 = id
  · subst hid
    cases h : alookup m id0 with
    | none => rw [h] at hq; simp at hq
    | some l =>
      have hq' : q ∈ l := by rw [h] at hq; simpa using hq
      simp only [h]
      by_cases hp : peer ∈ l
      · rw [if_pos hp, h]; simpa using hq'
      · rw [if_neg hp, alookup_aset]
        simp only [Option.getD_some, List.mem_append]
        exact Or.inl hq'
  · cases h : alookup m id with
    | none =>
      simp only [h]
      rw [alookup_aset_ne _ _ _ _ hid]; exact hq
    | some l =>
      simp only [h]
      by_cases hp : peer ∈ l
      · rw [if_pos hp]; exact hq
      · rw [if_neg hp, alookup_aset_ne _ _ _ _ hid]; exact hq

theorem insertByTs_perm (x : Tweet) (l : List Tweet) :
    (insertByTs x l).Perm (x :: l) := by
  induction l with
  | nil => exact List.Perm.refl _
  | cons y ys ih =>
    unfold insertByTs
    by_cases hc : tsOf y ≤ tsOf x
    · simp only [if_pos hc]
      exact List.Perm.refl _
    · simp only [if_neg hc]
      exact (ih.cons y).trans (List.Perm.swap x y ys)

theorem sortTweetsList_perm (l : List Tweet) : (sortTweetsList l).Perm l := by
  induction l with
  | nil => exact List.Perm.refl _
  | cons x xs ih =>
    unfold sortTweetsList at ih ⊢
    simp only [List.foldr_cons]
    exact (insertByTs_perm x _).trans (ih.cons x)

theorem sortTweetsList_length (l : List Tweet) :
    (sortTweetsList l).length = l.length :=
  (sortTweetsList_perm l).length_eq

/-! ### Characterizations of addTweet -/

/-- A tweet whose (non-empty) id is already stored: addTweet is a complete
no-op returning the id. -/
theorem addTweet_present (now : Int) (peerId : String) (st : TMState)
    (u c ts : Option JVal) (recips : Option (List String)) (tid : String)
    (mid mth mty : Option JVal)
    (hne : ¬ (tid = ""))
    (hmem : st.tweets.any (fun t => t.id = tid) = true) :
    addTweet now peerId st u c ts recips (some tid) mid mth mty
      = .ok (tid, st, []) := by
  unfold addTweet addTweetWithId
  simp [hne, hmem]

/-- A fresh valid tweet within the storage cap: pushed and sorted into the
log, recipients seeded, unsent queues and rate limiter untouched, one
persisted save. -/
theorem addTweet_fresh (now : Int) (peerId : String) (st : TMState)
    (u c ts : Option JVal) (recips : Option (List String)) (tid : String)
    (mid mth mty : Option JVal)
    (hne : ¬ (tid = ""))
    (hfresh : st.tweets.any (fun t => t.id = tid) = false)
    (hvalid : validateTweet now (mkStoredTweet u c ts tid mid mth mty).toObj = true)
    (hcap : st.tweets.length < MAX_TWEETS_STORAGE) :
    addTweet now peerId st u c ts recips (some tid) mid mth mty =
      .ok (tid,
        { st with
            tweets := sortTweetsList (st.tweets ++ [mkStoredTweet u c ts tid mid mth mty]),
            tweetRecipients := recipSeed st.tweetRecipients tid recips },
        [Effect.saveTweets, Effect.saveDistState, Effect.notifyTweetsUpdated]) := by
  have hlen : (sortTweetsList (st.tweets ++ [mkStoredTweet u c ts tid mid mth mty])).length
      = st.tweets.length + 1 := by
    rw [sortTweetsList_length]; simp
  have hnoev : ¬ (MAX_TWEETS_STORAGE <
      (sortTweetsList (st.tweets ++ [mkStoredTweet u c ts tid mid mth mty])).length) := by
    rw [hlen]; omega
  unfold addTweet addTweetWithId evictExcess saveTweetsOp
  simp [hne, hfresh, hvalid, hnoev]

end Spellcast

namespace Spellcast

/-- validateTweet never reads the id field. -/
theorem validateTweet_ignores_id (now : Int) (t : TweetObj) (v : Option JVal) :
    validateTweet now { t with id := v } = validateTweet now t := rfl

/-- Effects that are network sends. -/
def isSendEffect : Effect → Bool
  | .send _ _ => true
  | _ => false

/-- Claim C3, counterexample: an inbound media-only tweet message that
satisfies every validation rule of the claim (non-empty author, numeric
non-future creation time, attachment present and well-shaped, no fields
outside the schema) — `validateTweet` itself accepts the full object —
is nevertheless dropped with no state change and no acknowledgment,
because `handleTweetMessage` copies only username/content/timestamp/id
before validating, discarding the attachment fields. -/
theorem handleTweet_mediaOnly_dropped_counterexample :
    validateTweet 1000
      ⟨some (.str "m1"), some (.str "alice"), none, some (.num 1000),
       some (.str "img1"), some (.str "th"), some (.str "image"), []⟩ = true
    ∧ handleTweetMessage 1000 "self" ⟨[], [], [], []⟩
        ⟨some (.str "m1"), some (.str "alice"), none, some (.num 1000),
         some (.str "img1"), some (.str "th"), some (.str "image"), []⟩ "p"
      = (⟨[], [], [], []⟩, []) := by
  constructor <;> decide

/-- Claim C3 (amended): a single inbound tweet message is reduced to its
username, content, timestamp and id fields — attachments are discarded
(so a media-only message fails the non-empty-content rule) and
unrecognized wire fields are ignored rather than causing rejection — and
then validated. If the reduced object fails validation the message is
dropped with no state change, no acknowledgment and no effect at all; if
it is valid and its (non-empty) id is not yet stored and the log is below
its cap, the message is stored without media fields, the sending peer is
marked a confirmed recipient, and the only send effect is a single
tweet_ack carrying the id; if it is valid and already stored, the log is
unchanged but the sender is still marked and the single ack is still
sent. -/
theorem handleTweet_validation_ack_spec (now : Int) (peerId : String)
    (st : TMState) (data : TweetObj) (sender : String) :
    ((validateTweet now (strippedInbound data) = false →
        handleTweetMessage now peerId st data sender = (st, []))
    ∧ (validateTweet now (strippedInbound data) = true →
        ¬ (inboundTweetId peerId data = "") →
        st.tweets.any (fun t => t.id = inboundTweetId peerId data) = false →
        st.tweets.length < MAX_TWEETS_STORAGE →
        (handleTweetMessage now peerId st data sender).1.tweets
            = sortTweetsList (st.tweets ++
                [⟨data.username, data.content, data.timestamp,
                  inboundTweetId peerId data, none, none, none⟩])
        ∧ sender ∈ ((alookup (handleTweetMessage now peerId st data sender).1.tweetRecipients
              (inboundTweetId peerId data)).getD [])
        ∧ (handleTweetMessage now peerId st data sender).2.filter isSendEffect
            = [Effect.send sender (OutMsg.tweetAck (inboundTweetId peerId data))])
    ∧ (validateTweet now (strippedInbound data) = true →
        ¬ (inboundTweetId peerId data = "") →
        st.tweets.any (fun t => t.id = inboundTweetId peerId data) = true →
        (handleTweetMessage now peerId st data sender).1.tweets = st.tweets
        ∧ sender ∈ ((alookup (handleTweetMessage now peerId st data sender).1.tweetRecipients
              (inboundTweetId peerId data)).getD [])
        ∧ (handleTweetMessage now peerId st data sender).2.filter isSendEffect
            = [Effect.send sender (OutMsg.tweetAck (inboundTweetId peerId data))])) := by
  refine ⟨?_, ?_, ?_⟩
  · intro hv
    unfold handleTweetMessage
    rw [if_pos (by simp [hv])]
  · intro hv hne hfresh hcap
    have hvalid' : validateTweet now (mkStoredTweet data.username data.content
        data.timestamp (inboundTweetId peerId data) none none none).toObj = true := by
      have heq : (mkStoredTweet data.username data.content data.timestamp
          (inboundTweetId peerId data) none none none).toObj
          = { strippedInbound data with
              id := some (.str (inboundTweetId peerId data)) } := rfl
      rw [heq, validateTweet_ignores_id]
      exact hv
    have hadd := addTweet_fresh now peerId st data.username data.content data.timestamp
      none (inboundTweetId peerId data) none none none hne hfresh hvalid' hcap
    have hres : handleTweetMessage now peerId st data sender
        = (⟨sortTweetsList (st.tweets ++
              [mkStoredTweet data.username data.content data.timestamp
                (inboundTweetId peerId data) none none none]),
            markRecipient (recipSeed st.tweetRecipients (inboundTweetId peerId data) none)
              (inboundTweetId peerId data) sender,
            st.unsentTweets, st.rl⟩,
           [Effect.saveTweets, Effect.saveDistState, Effect.notifyTweetsUpdated,
            Effect.send sender (OutMsg.tweetAck (inboundTweetId peerId data)),
            Effect.saveDistState, Effect.notifyTweetsUpdated]) := by
      unfold handleTweetMessage
      rw [if_neg (not_not_intro hv), hadd]
      rfl
    rw [hres]
    refine ⟨rfl, markRecipient_mem _ _ _, by simp [isSendEffect]⟩
  · intro hv hne hmem
    have hadd := addTweet_present now peerId st data.username data.content data.timestamp
      none (inboundTweetId peerId data) none none none hne hmem
    have hres : handleTweetMessage now peerId st data sender
        = (⟨st.tweets,
            markRecipient st.tweetRecipients (inboundTweetId peerId data) sender,
            st.unsentTweets, st.rl⟩,
           [Effect.send sender (OutMsg.tweetAck (inboundTweetId peerId data)),
            Effect.saveDistState, Effect.notifyTweetsUpdated]) := by
      unfold handleTweetMessage
      rw [if_neg (not_not_intro hv), hadd]
      rfl
    rw [hres]
    refine ⟨rfl, markRecipient_mem _ _ _, by simp [isSendEffect]⟩

/-- Witness for the amended claim C3: a plain valid text message stored
into an empty log draws exactly one ack naming its id. -/
theorem handleTweet_validation_ack_spec_witness :
    validateTweet 1000 (strippedInbound
      ⟨some (.str "w4"), some (.str "alice"), some (.str "hello"),
       some (.num 1000), none, none, none, []⟩) = true
    ∧ (handleTweetMessage 1000 "self" ⟨[], [], [], []⟩
        ⟨some (.str "w4"), some (.str "alice"), some (.str "hello"),
         some (.num 1000), none, none, none, []⟩ "q").2.filter isSendEffect
      = [Effect.send "q" (OutMsg.tweetAck "w4")] := by
  have h := handleTweet_validation_ack_spec 1000 "self" ⟨[], [], [], []⟩
    ⟨some (.str "w4"), some (.str "alice"), some (.str "hello"),
     some (.num 1000), none, none, none, []⟩ "q"
  refine ⟨by decide, ?_⟩
  have h2 := (h.2.1 (by decide) (by decide) (by decide) (by decide)).2.2
  rw [h2]
  decide

end Spellcast

namespace Spellcast

/-! ### Unsent-queue and recipient-set preservation lemmas -/

theorem removeUnsent_not_mem_self (m : StrListMap) (peer targetId : String) :
    targetId ∉ ((alookup (removeUnsent m peer targetId) peer).getD []) := by
  unfold removeUnsent
  cases h : alookup m peer with
  | none =>
    simp only [h]
    simp
  | some l =>
    simp only [h]
    rw [alookup_aset]
    simp only [Option.getD_some]
    intro hmem
    exact (by simpa using (List.mem_filter.mp hmem).2 : ¬ (targetId = targetId)) rfl

theorem removeUnsent_preserves_not_mem (m : StrListMap) (peer y x : String)
    (hx : x ∉ ((alookup m peer).getD [])) :
    x ∉ ((alookup (removeUnsent m peer y) peer).getD []) := by
  unfold removeUnsent
  cases h : alookup m peer with
  | none => simp only [h]; simp
  | some l =>
    simp only [h]
    rw [alookup_aset]
    simp only [Option.getD_some]
    intro hmem
    rw [h] at hx
    exact hx (by simpa using (List.mem_filter.mp hmem).1)

theorem removeUnsent_preserves_mem (m : StrListMap) (peer y x : String)
    (hxy : ¬ (x = y)) (hx : x ∈ ((alookup m peer).getD [])) :
    x ∈ ((alookup (removeUnsent m peer y) peer).getD []) := by
  unfold removeUnsent
  cases h : alookup m peer with
  | none => rw [h] at hx; simp only [h]; exact hx
  | some l =>
    simp only [h]
    rw [alookup_aset]
    simp only [Option.getD_some]
    rw [h] at hx
    simp only [Option.getD_some] at hx
    exact List.mem_filter.mpr ⟨hx, by simpa using hxy⟩

theorem removeUnsent_other_peer (m : StrListMap) (peer y : String) (peer0 : String)
    (hp : ¬ (peer0 = peer)) :
    alookup (removeUnsent m peer y) peer0 = alookup m peer0 := by
  unfold removeUnsent
  cases h : alookup m peer with
  | none => simp only [h]
  | some l =>
    simp only [h]
    exact alookup_aset_ne _ _ _ _ hp

theorem addUnsent_mem_self (m : StrListMap) (peer targetId : String) :
    targetId ∈ ((alookup (addUnsent m peer targetId) peer).getD []) := by
  unfold addUnsent
  cases h : alookup m peer with
  | none => rw [alookup_aset]; simp
  | some l =>
    by_cases hp : targetId ∈ l
    · simp only [h, if_pos hp]
      simpa using hp
    · simp only [h, if_neg hp]
      rw [alookup_aset]
      simp

theorem addUnsent_preserves_not_mem (m : StrListMap) (peer y x : String)
    (hxy : ¬ (x = y)) (hx : x ∉ ((alookup m peer).getD [])) :
    x ∉ ((alookup (addUnsent m peer y) peer).getD []) := by
  unfold addUnsent
  cases h : alookup m peer with
  | none =>
    simp only [h]
    rw [alookup_aset]
    simpa using hxy
  | some l =>
    rw [h] at hx
    simp only [Option.getD_some] at hx
    by_cases hp : y ∈ l
    · simp only [h, if_pos hp]
      simpa using hx
    · simp only [h, if_neg hp]
      rw [alookup_aset]
      simp only [Option.getD_some, List.mem_append, List.mem_singleton]
      rintro (hc | hc)
      · exact hx hc
      · exact hxy hc

theorem addUnsent_preserves_mem (m : StrListMap) (peer y x : String)
    (hx : x ∈ ((alookup m peer).getD []))  :
    x ∈ ((alookup (addUnsent m peer y) peer).getD []) := by
  unfold addUnsent
  cases h : alookup m peer with
  | none => rw [h] at hx; simp at hx
  | some l =>
    rw [h] at hx
    simp only [Option.getD_some] at hx
    by_cases hp : y ∈ l
    · simp only [h, if_pos hp]
      simpa using hx
    · simp only [h, if_neg hp]
      rw [alookup_aset]
      simp only [Option.getD_some, List.mem_append]
      exact Or.inl hx

theorem addUnsent_other_peer (m : StrListMap) (peer y : String) (peer0 : String)
    (hp : ¬ (peer0 = peer)) :
    alookup (addUnsent m peer y) peer0 = alookup m peer0 := by
  unfold addUnsent
  cases h : alookup m peer with
  | none => simp only [h]; exact alookup_aset_ne _ _ _ _ hp
  | some l =>
    by_cases hy : y ∈ l
    · simp only [h, if_pos hy]
    · simp only [h, if_neg hy]
      exact alookup_aset_ne _ _ _ _ hp

end Spellcast

namespace Spellcast

theorem bulkAckStep_unsent_eq (sender : String) (st : TMState) (v : JVal) :
    (bulkAckStep sender st v).unsentTweets
      = removeUnsent st.unsentTweets sender (jvalKeyStr v) := rfl

theorem bulkAckStep_entry_preserved (sender : String) (st : TMState) (v : JVal)
    (k : String) (l : List String)
    (h : alookup st.tweetRecipients k = some l) :
    ∃ l2, alookup (bulkAckStep sender st v).tweetRecipients k = some l2 := by
  unfold bulkAckStep
  by_cases hk : k = jvalKeyStr v
  · subst hk
    simp only [h]
    by_cases hs : sender ∈ l
    · exact ⟨l, by simp only [if_pos hs]; exact h⟩
    · exact ⟨l ++ [sender], by simp only [if_neg hs]; exact alookup_aset _ _ _⟩
  · cases hm : alookup st.tweetRecipients (jvalKeyStr v) with
    | none => exact ⟨l, by simp only [hm]; exact h⟩
    | some l2 =>
      by_cases hs : sender ∈ l2
      · exact ⟨l, by simp only [hm, if_pos hs]; exact h⟩
      · exact ⟨l, by
          simp only [hm, if_neg hs]
          rw [alookup_aset_ne _ _ _ _ hk]
          exact h⟩

theorem bulkAckStep_mem_preserved (sender : String) (st : TMState) (v : JVal)
    (k q : String) (hq : q ∈ ((alookup st.tweetRecipients k).getD [])) :
    q ∈ ((alookup (bulkAckStep sender st v).tweetRecipients k).getD []) := by
  unfold bulkAckStep
  by_cases hk : k = jvalKeyStr v
  · subst hk
    cases hm : alookup st.tweetRecipients (jvalKeyStr v) with
    | none => rw [hm] at hq; simp at hq
    | some l =>
      rw [hm] at hq
      simp only [Option.getD_some] at hq
      simp only [hm]
      by_cases hs : sender ∈ l
      · simp only [if_pos hs, hm]
        simpa using hq
      · simp only [if_neg hs]
        rw [alookup_aset]
        simp only [Option.getD_some, List.mem_append]
        exact Or.inl hq
  · cases hm : alookup st.tweetRecipients (jvalKeyStr v) with
    | none => simp only [hm]; exact hq
    | some l =>
      by_cases hs : sender ∈ l
      · simp only [hm, if_pos hs]; exact hq
      · simp only [hm, if_neg hs]
        rw [alookup_aset_ne _ _ _ _ hk]
        exact hq

theorem bulkFold_not_mem_unsent (sender : String) (ids : List JVal) (st : TMState)
    (key : String) (h : key ∉ ((alookup st.unsentTweets sender).getD [])) :
    key ∉ ((alookup (ids.foldl (bulkAckStep sender) st).unsentTweets sender).getD []) := by
  induction ids generalizing st with
  | nil => exact h
  | cons w ws ih =>
    simp only [List.foldl_cons]
    apply ih
    rw [bulkAckStep_unsent_eq]
    exact removeUnsent_preserves_not_mem _ _ _ _ h

theorem bulkFold_mem_recip (sender : String) (ids : List JVal) (st : TMState)
    (k : String) (h : sender ∈ ((alookup st.tweetRecipients k).getD [])) :
    sender ∈ ((alookup (ids.foldl (bulkAckStep sender) st).tweetRecipients k).getD []) := by
  induction ids generalizing st with
  | nil => exact h
  | cons w ws ih =>
    simp only [List.foldl_cons]
    exact ih _ (bulkAckStep_mem_preserved _ _ _ _ _ h)

theorem bulkFold_removes_unsent (sender : String) (v : JVal) (ids : List JVal)
    (st : TMState) (hv : v ∈ ids) :
    jvalKeyStr v ∉
      ((alookup (ids.foldl (bulkAckStep sender) st).unsentTweets sender).getD []) := by
  induction ids generalizing st with
  | nil => simp at hv
  | cons w ws ih =>
    simp only [List.foldl_cons]
    rcases List.mem_cons.mp hv with heq | hmem
    · subst heq
      by_cases hws : v ∈ ws
      · exact ih _ hws
      · apply bulkFold_not_mem_unsent
        rw [bulkAckStep_unsent_eq]
        exact removeUnsent_not_mem_self _ _ _
    · exact ih _ hmem

theorem bulkFold_marks_recip (sender : String) (v : JVal) (ids : List JVal)
    (st : TMState) (hv : v ∈ ids) (l : List String)
    (hl : alookup st.tweetRecipients (jvalKeyStr v) = some l) :
    sender ∈
      ((alookup (ids.foldl (bulkAckStep sender) st).tweetRecipients
        (jvalKeyStr v)).getD []) := by
  induction ids generalizing st l with
  | nil => simp at hv
  | cons w ws ih =>
    simp only [List.foldl_cons]
    rcases List.mem_cons.mp hv with heq | hmem
    · subst heq
      have hmarked : sender ∈
          ((alookup (bulkAckStep sender st v).tweetRecipients (jvalKeyStr v)).getD []) := by
        unfold bulkAckStep
        simp only [hl]
        by_cases hs : sender ∈ l
        · simp only [if_pos hs, hl]
          simpa using hs
        · simp only [if_neg hs]
          rw [alookup_aset]
          simp
      exact bulkFold_mem_recip _ _ _ _ hmarked
    · obtain ⟨l2, hl2⟩ := bulkAckStep_entry_preserved sender st w (jvalKeyStr v) l hl
      exact ih _ hmem _ hl2

end Spellcast

namespace Spellcast

/-- Claim C9, counterexample: a tweet_ack naming an id with no
recipient-set entry (here the table is empty while the id sits in the
sender's unsent queue) does nothing at all — the peer is not marked a
confirmed recipient and the id is not removed from the unsent queue,
contradicting the claim's unconditional effect. -/
theorem tweetAck_unknownId_counterexample :
    handleTweetAckMessage ⟨[], [], [("p", ["m"])], []⟩ (some (JVal.str "m")) "p"
      = (⟨[], [], [("p", ["m"])], []⟩, [])
    ∧ "p" ∉ ((alookup (handleTweetAckMessage ⟨[], [], [("p", ["m"])], []⟩
        (some (JVal.str "m")) "p").1.tweetRecipients "m").getD [])
    ∧ "m" ∈ ((alookup (handleTweetAckMessage ⟨[], [], [("p", ["m"])], []⟩
        (some (JVal.str "m")) "p").1.unsentTweets "p").getD []) := by
  refine ⟨?_, ?_, ?_⟩ <;> decide

/-- Claim C9 (amended): a tweet_ack naming id m from peer p takes effect
only when m has a recipient-set entry that does not yet name p; in that
case p is added to the entry and m is removed from p's unsent queue. When
m has no entry (unknown or evicted id), or p is already marked, the ack
is ignored entirely — in particular m then stays in p's unsent queue. A
bulk_tweet_ack applies the conditional recipient marking per named id,
but removes each named id from p's unsent queue unconditionally. -/
theorem tweetAck_handling_spec :
    (∀ (st : TMState) (v : JVal) (sender : String) (l : List String),
        v.truthy = true →
        alookup st.tweetRecipients (jvalKeyStr v) = some l →
        sender ∉ l →
        handleTweetAckMessage st (some v) sender
          = ({ st with
                tweetRecipients := aset st.tweetRecipients (jvalKeyStr v) (l ++ [sender]),
                unsentTweets := removeUnsent st.unsentTweets sender (jvalKeyStr v) },
             [Effect.saveDistState])
        ∧ sender ∈ ((alookup (handleTweetAckMessage st (some v) sender).1.tweetRecipients
              (jvalKeyStr v)).getD [])
        ∧ jvalKeyStr v ∉ ((alookup (handleTweetAckMessage st (some v) sender).1.unsentTweets
              sender).getD []))
    ∧ (∀ (st : TMState) (v : JVal) (sender : String),
        alookup st.tweetRecipients (jvalKeyStr v) = none →
        handleTweetAckMessage st (some v) sender = (st, []))
    ∧ (∀ (st : TMState) (v : JVal) (sender : String) (l : List String),
        alookup st.tweetRecipients (jvalKeyStr v) = some l →
        sender ∈ l →
        handleTweetAckMessage st (some v) sender = (st, []))
    ∧ (∀ (st : TMState) (v : JVal) (sender : String) (ids : List JVal),
        v ∈ ids →
        jvalKeyStr v ∉
          ((alookup (handleBulkTweetAckMessage st (some ids) sender).1.unsentTweets
            sender).getD []))
    ∧ (∀ (st : TMState) (v : JVal) (sender : String) (ids : List JVal) (l : List String),
        v ∈ ids →
        alookup st.tweetRecipients (jvalKeyStr v) = some l →
        sender ∈
          ((alookup (handleBulkTweetAckMessage st (some ids) sender).1.tweetRecipients
            (jvalKeyStr v)).getD [])) := by
  refine ⟨?_, ?_, ?_, ?_, ?_⟩
  · intro st v sender l htr hl hs
    have hres : handleTweetAckMessage st (some v) sender
        = ({ st with
              tweetRecipients := aset st.tweetRecipients (jvalKeyStr v) (l ++ [sender]),
              unsentTweets := removeUnsent st.unsentTweets sender (jvalKeyStr v) },
           [Effect.saveDistState]) := by
      unfold handleTweetAckMessage
      simp only [htr, if_pos, hl, if_neg hs, if_true]
    rw [hres]
    refine ⟨rfl, ?_, removeUnsent_not_mem_self _ _ _⟩
    rw [alookup_aset]
    simp
  · intro st v sender hl
    unfold handleTweetAckMessage
    by_cases htr : v.truthy = true
    · simp only [htr, if_true, hl]
    · simp only [htr]
      simp [Bool.not_eq_true] at htr
      simp [htr]
  · intro st v sender l hl hs
    unfold handleTweetAckMessage
    by_cases htr : v.truthy = true
    · simp only [htr, if_true, hl, if_pos hs]
    · simp only [htr]
      simp [Bool.not_eq_true] at htr
      simp [htr]
  · intro st v sender ids hv
    unfold handleBulkTweetAckMessage
    exact bulkFold_removes_unsent sender v ids st hv
  · intro st v sender ids l hv hl
    unfold handleBulkTweetAckMessage
    exact bulkFold_marks_recip sender v ids st hv l hl

/-- Witness for the amended claim C9: an ack for a stored id with an
existing entry marks the sender and clears the unsent queue. -/
theorem tweetAck_handling_spec_witness :
    handleTweetAckMessage ⟨[], [("w5", [])], [("r", ["w5"])], []⟩
        (some (JVal.str "w5")) "r"
      = (⟨[], [("w5", ["r"])], [("r", [])], []⟩, [Effect.saveDistState]) := by
  have h := (tweetAck_handling_spec.1 ⟨[], [("w5", [])], [("r", ["w5"])], []⟩
    (JVal.str "w5") "r" [] (by decide) (by decide) (by decide)).1
  rw [h]
  decide

end Spellcast

namespace Spellcast

/-! ### The operation alphabet of the engine (for state invariants) -/

/-- Every state-mutating entry point of the tweet manager, with its inputs
(inbound payloads, clock, user/peer context, send outcomes). -/
inductive TMOp where
  | create (now : Int) (content : Option String)
      (media : Option (String × String × String)) (username peerId : String)
      (connections : List String) (sendOk : String → Bool)
  | recvTweet (now : Int) (peerId : String) (data : TweetObj) (sender : String)
  | recvAllTweets (now : Int) (peerId : String)
      (tweets : Option (List TweetObj)) (sender : String)
  | recvAck (dataId : Option JVal) (sender : String)
  | recvBulkAck (dataIds : Option (List JVal)) (sender : String)
  | delTweet (id : String)
  | delAll
  | peerConnected (peer : String)
  | catchup (peer : String) (batchOk : Nat → Bool)

/-- The state reached after one operation (effects discarded). -/
def applyOp (st : TMState) : TMOp → TMState
  | .create now content media username peerId conns sendOk =>
      (createTweet now st content media username peerId conns sendOk).2.1
  | .recvTweet now peerId data sender => (handleTweetMessage now peerId st data sender).1
  | .recvAllTweets now peerId tws sender => (handleAllTweetsMessage now peerId st tws sender).1
  | .recvAck dataId sender => (handleTweetAckMessage st dataId sender).1
  | .recvBulkAck ids sender => (handleBulkTweetAckMessage st ids sender).1
  | .delTweet id => (deleteTweet st id).2.1
  | .delAll => (deleteAllTweets st).2.1
  | .peerConnected peer => onPeerConnectedHandler st peer
  | .catchup peer batchOk => (sendSelectiveTweets st peer batchOk).1

/-- Distinct ids in the log. -/
def NodupIds (st : TMState) : Prop :=
  (st.tweets.map (fun t => t.id)).Nodup

theorem mkStoredTweet_id (u c ts : Option JVal) (tid : String)
    (m1 m2 m3 : Option JVal) : (mkStoredTweet u c ts tid m1 m2 m3).id = tid := by
  unfold mkStoredTweet
  split <;> rfl

theorem sortTweetsList_map_nodup (l : List Tweet)
    (h : (l.map (fun t => t.id)).Nodup) :
    ((sortTweetsList l).map (fun t => t.id)).Nodup :=
  (((sortTweetsList_perm l).map (fun t => t.id)).nodup_iff).mpr h

theorem take_map_nodup (l : List Tweet) (n : Nat)
    (h : (l.map (fun t => t.id)).Nodup) :
    ((l.take n).map (fun t => t.id)).Nodup := by
  rw [List.map_take]
  exact h.sublist (List.take_sublist n _)

theorem saveTweetsOp_nodup (st : TMState) (h : NodupIds st) :
    NodupIds (saveTweetsOp st).1 := by
  unfold NodupIds at h ⊢
  unfold saveTweetsOp
  split
  · exact take_map_nodup _ _ h
  · exact h

theorem evictExcess_nodup (st : TMState) (h : NodupIds st) :
    NodupIds (evictExcess st) := by
  unfold NodupIds at h ⊢
  unfold evictExcess
  split
  · exact take_map_nodup _ _ h
  · exact h

theorem addTweetWithId_ok_nodup (now : Int) (st : TMState)
    (u c ts : Option JVal) (recips : Option (List String)) (tweetId : String)
    (mid mth mty : Option JVal) (tid : String) (st' : TMState) (effs : List Effect)
    (h : NodupIds st)
    (heq : addTweetWithId now st u c ts recips tweetId mid mth mty
      = .ok (tid, st', effs)) :
    NodupIds st' := by
  unfold addTweetWithId at heq
  split at heq
  · injection heq with heq2
    injection heq2 with h1 heq3
    injection heq3 with h2 h3
    rw [← h2]
    exact h
  case isFalse hany =>
    split at heq
    · exact absurd heq (by simp)
    · injection heq with heq2
      injection heq2 with h1 heq3
      injection heq3 with h2 h3
      rw [← h2]
      apply saveTweetsOp_nodup
      apply evictExcess_nodup
      unfold NodupIds
      show ((sortTweetsList (st.tweets ++
        [mkStoredTweet u c ts tweetId mid mth mty])).map (fun t => t.id)).Nodup
      apply sortTweetsList_map_nodup
      rw [List.map_append]
      simp only [List.map_cons, List.map_nil, mkStoredTweet_id]
      rw [List.nodup_append]
      refine ⟨h, List.nodup_singleton _, ?_⟩
      intro a ha
      simp only [List.mem_singleton]
      intro hc
      subst hc
      obtain ⟨t, ht, hid⟩ := List.mem_map.mp ha
      have hany2 : st.tweets.any (fun t => t.id = a) = true := by
        rw [List.any_eq_true]
        exact ⟨t, ht, by simpa using hid⟩
      rw [hany2] at hany
      exact absurd rfl hany

theorem addTweet_ok_nodup (now : Int) (peerId : String) (st : TMState)
    (u c ts : Option JVal) (recips : Option (List String)) (id : Option String)
    (mid mth mty : Option JVal) (tid : String) (st' : TMState) (effs : List Effect)
    (h : NodupIds st)
    (heq : addTweet now peerId st u c ts recips id mid mth mty = .ok (tid, st', effs)) :
    NodupIds st' := by
  unfold addTweet at heq
  exact addTweetWithId_ok_nodup now st u c ts recips _ mid mth mty tid st' effs h heq

end Spellcast

namespace Spellcast

instance (st : TMState) : Decidable (NodupIds st) := by
  unfold NodupIds; infer_instance

theorem broadcastStep_tweets (tweetId : String) (sendOk : String → Bool)
    (payload : OutMsg) (acc : TMState × List Effect) (peer : String) :
    (broadcastStep tweetId sendOk payload acc peer).1.tweets = acc.1.tweets := by
  unfold broadcastStep
  split
  · dsimp only
    split
    · split
      · rfl
      · rfl
    · rfl
  · rfl

theorem broadcastFold_tweets (tweetId : String) (sendOk : String → Bool)
    (payload : OutMsg) (conns : List String) (acc : TMState × List Effect) :
    ((conns.foldl (broadcastStep tweetId sendOk payload) acc).1).tweets
      = acc.1.tweets := by
  induction conns generalizing acc with
  | nil => rfl
  | cons p ps ih =>
    simp only [List.foldl_cons]
    rw [ih, broadcastStep_tweets]

theorem broadcastTweet_tweets (st : TMState) (username : String)
    (content : Option String) (timestamp : Int) (tweetId : String)
    (media : Option (String × String × String)) (connections : List String)
    (sendOk : String → Bool) :
    (broadcastTweet st username content timestamp tweetId media
      connections sendOk).1.tweets = st.tweets := by
  unfold broadcastTweet
  exact broadcastFold_tweets _ _ _ _ _

theorem handleTweetMessage_nodup (now : Int) (peerId : String) (st : TMState)
    (data : TweetObj) (sender : String) (h : NodupIds st) :
    NodupIds (handleTweetMessage now peerId st data sender).1 := by
  unfold handleTweetMessage
  split
  · exact h
  · cases heq : addTweet now peerId st data.username data.content data.timestamp
        none (some (inboundTweetId peerId data)) none none none with
    | error e =>
      simp only [heq]
      exact h
    | ok r =>
      obtain ⟨tid, st1, effs1⟩ := r
      simp only [heq]
      exact addTweet_ok_nodup now peerId st _ _ _ _ _ _ _ _ tid st1 effs1 h heq

theorem allTweetsStep_nodup (now : Int) (peerId sender : String)
    (acc : TMState × List String × List Effect) (tw : TweetObj)
    (h : NodupIds acc.1) :
    NodupIds (allTweetsStep now peerId sender acc tw).1 := by
  obtain ⟨st, validIds, effs⟩ := acc
  unfold allTweetsStep
  dsimp only
  split
  · exact h
  · cases heq : addTweet now peerId st tw.username tw.content tw.timestamp
        none (some (inboundTweetId peerId tw)) none none none with
    | error e =>
      simp only [heq]
      exact h
    | ok r =>
      obtain ⟨tid, st1, effs1⟩ := r
      simp only [heq]
      exact addTweet_ok_nodup now peerId st _ _ _ _ _ _ _ _ tid st1 effs1 h heq

theorem allTweetsFold_nodup (now : Int) (peerId sender : String)
    (l : List TweetObj) (acc : TMState × List String × List Effect)
    (h : NodupIds acc.1) :
    NodupIds ((l.foldl (allTweetsStep now peerId sender) acc).1) := by
  induction l generalizing acc with
  | nil => exact h
  | cons tw tws ih =>
    simp only [List.foldl_cons]
    exact ih _ (allTweetsStep_nodup now peerId sender acc tw h)

theorem handleAllTweetsMessage_nodup (now : Int) (peerId : String) (st : TMState)
    (tweets : Option (List TweetObj)) (sender : String) (h : NodupIds st) :
    NodupIds (handleAllTweetsMessage now peerId st tweets sender).1 := by
  unfold handleAllTweetsMessage
  cases tweets with
  | none => exact h
  | some l => exact allTweetsFold_nodup now peerId sender l (st, [], []) h

theorem handleTweetAckMessage_tweets (st : TMState) (dataId : Option JVal)
    (sender : String) :
    (handleTweetAckMessage st dataId sender).1.tweets = st.tweets := by
  unfold handleTweetAckMessage
  cases dataId with
  | none => rfl
  | some v =>
    dsimp only
    split
    · split
      · rfl
      · split
        · rfl
        · rfl
    · rfl

theorem bulkAckFold_tweets (sender : String) (ids : List JVal) (st : TMState) :
    (ids.foldl (bulkAckStep sender) st).tweets = st.tweets := by
  induction ids generalizing st with
  | nil => rfl
  | cons w ws ih =>
    simp only [List.foldl_cons]
    rw [ih]
    rfl

theorem handleBulkTweetAckMessage_tweets (st : TMState)
    (dataIds : Option (List JVal)) (sender : String) :
    (handleBulkTweetAckMessage st dataIds sender).1.tweets = st.tweets := by
  unfold handleBulkTweetAckMessage
  cases dataIds with
  | none => rfl
  | some ids => exact bulkAckFold_tweets sender ids st

theorem deleteTweet_nodup (st : TMState) (id : String) (h : NodupIds st) :
    NodupIds (deleteTweet st id).2.1 := by
  have hfil : NodupIds { st with tweets := st.tweets.filter (fun t => ¬ (t.id = id)) } := by
    unfold NodupIds at h ⊢
    exact h.sublist ((List.filter_sublist _).map _)
  unfold deleteTweet
  dsimp only
  split
  · exact saveTweetsOp_nodup _ hfil
  · exact hfil

theorem markBatch_tweets (peer : String) (b : List Tweet) (s : TMState) :
    (markBatch peer s b).tweets = s.tweets := by
  unfold markBatch
  induction b generalizing s with
  | nil => rfl
  | cons t ts ih => simp only [List.foldl_cons]; rw [ih]

theorem requeueBatch_tweets (peer : String) (b : List Tweet) (s : TMState) :
    (requeueBatch peer s b).tweets = s.tweets := by
  unfold requeueBatch
  induction b generalizing s with
  | nil => rfl
  | cons t ts ih => simp only [List.foldl_cons]; rw [ih]

theorem selBatchStep_tweets (peer : String) (batchOk : Nat → Bool)
    (acc : TMState × List Effect × Nat) (batch : List Tweet) :
    (selBatchStep peer batchOk acc batch).1.tweets = acc.1.tweets := by
  obtain ⟨st, effs, idx⟩ := acc
  unfold selBatchStep
  dsimp only
  split
  · exact markBatch_tweets peer batch st
  · exact requeueBatch_tweets peer batch st

theorem selFold_tweets (peer : String) (batchOk : Nat → Bool)
    (batches : List (List Tweet)) (acc : TMState × List Effect × Nat) :
    ((batches.foldl (selBatchStep peer batchOk) acc).1).tweets = acc.1.tweets := by
  induction batches generalizing acc with
  | nil => rfl
  | cons b bs ih =>
    simp only [List.foldl_cons]
    rw [ih, selBatchStep_tweets]

theorem sendSelectiveTweets_tweets (st : TMState) (peer : String)
    (batchOk : Nat → Bool) :
    (sendSelectiveTweets st peer batchOk).1.tweets = st.tweets := by
  unfold sendSelectiveTweets
  split
  · rfl
  · exact selFold_tweets _ _ _ _

theorem createTweet_nodup (now : Int) (st : TMState) (content : Option String)
    (media : Option (String × String × String)) (username peerId : String)
    (connections : List String) (sendOk : String → Bool) (h : NodupIds st) :
    NodupIds (createTweet now st content media username peerId
      connections sendOk).2.1 := by
  unfold createTweet
  split
  · exact h
  split
  · exact h
  dsimp only
  split
  · exact h
  split
  · exact h
  case _ tid st1 effs1 heq =>
    unfold NodupIds
    rw [broadcastTweet_tweets]
    refine addTweet_ok_nodup _ _ _ _ _ _ _ _ _ _ _ _ _ _ ?_ heq
    exact h

theorem applyOp_nodup (st : TMState) (op : TMOp) (h : NodupIds st) :
    NodupIds (applyOp st op) := by
  cases op with
  | create now content media username peerId conns sendOk =>
    exact createTweet_nodup now st content media username peerId conns sendOk h
  | recvTweet now peerId data sender =>
    exact handleTweetMessage_nodup now peerId st data sender h
  | recvAllTweets now peerId tws sender =>
    exact handleAllTweetsMessage_nodup now peerId st tws sender h
  | recvAck dataId sender =>
    unfold applyOp NodupIds
    rw [handleTweetAckMessage_tweets]
    exact h
  | recvBulkAck ids sender =>
    unfold applyOp NodupIds
    rw [handleBulkTweetAckMessage_tweets]
    exact h
  | delTweet id => exact deleteTweet_nodup st id h
  | delAll =>
    unfold applyOp deleteAllTweets NodupIds
    simp [saveTweetsOp, MAX_TWEETS_STORAGE]
  | peerConnected peer => exact h
  | catchup peer batchOk =>
    unfold applyOp NodupIds
    rw [sendSelectiveTweets_tweets]
    exact h

end Spellcast

namespace Spellcast

/-- Claim C8: storing a message whose (non-empty) id is already in the
local log is a complete no-op (idempotent store-by-id), and across every
sequence of operations — local creations, peer-received single and bulk
tweets, acks, deletions, reconnect catch-ups — a log with distinct ids
keeps distinct ids: the same id is never added as a second entry. -/
theorem storeById_idempotent_nodup_spec :
    (∀ (now : Int) (peerId : String) (st : TMState) (u c ts : Option JVal)
        (recips : Option (List String)) (tid : String) (mid mth mty : Option JVal),
        ¬ (tid = "") →
        st.tweets.any (fun t => t.id = tid) = true →
        addTweet now peerId st u c ts recips (some tid) mid mth mty
          = .ok (tid, st, []))
    ∧ (∀ (st0 : TMState) (ops : List TMOp),
        NodupIds st0 → NodupIds (ops.foldl applyOp st0)) := by
  constructor
  · intro now peerId st u c ts recips tid mid mth mty hne hmem
    exact addTweet_present now peerId st u c ts recips tid mid mth mty hne hmem
  · intro st0 ops h
    induction ops generalizing st0 with
    | nil => exact h
    | cons op rest ih =>
      simp only [List.foldl_cons]
      exact ih _ (applyOp_nodup st0 op h)

/-- Witness for claim C8: re-adding the stored id "w6" is a no-op, and
receiving the same tweet twice leaves the one-entry log duplicate-free. -/
theorem storeById_idempotent_nodup_spec_witness :
    addTweet 1000 "self"
        ⟨[⟨some (.str "alice"), some (.str "x"), some (.num 999), "w6",
          none, none, none⟩], [("w6", [])], [], []⟩
        (some (.str "alice")) (some (.str "x")) (some (.num 999)) none
        (some "w6") none none none
      = .ok ("w6",
          ⟨[⟨some (.str "alice"), some (.str "x"), some (.num 999), "w6",
            none, none, none⟩], [("w6", [])], [], []⟩, [])
    ∧ NodupIds
        ([TMOp.recvTweet 1000 "self"
            ⟨some (.str "w6"), some (.str "alice"), some (.str "x"),
             some (.num 999), none, none, none, []⟩ "p",
          TMOp.recvTweet 1000 "self"
            ⟨some (.str "w6"), some (.str "alice"), some (.str "x"),
             some (.num 999), none, none, none, []⟩ "p"].foldl applyOp
          ⟨[], [], [], []⟩) := by
  constructor
  · exact storeById_idempotent_nodup_spec.1 1000 "self" _ _ _ _ none "w6" _ _ _
      (by decide) (by decide)
  · exact storeById_idempotent_nodup_spec.2 _ _ (by decide)

end Spellcast

namespace Spellcast

/-! ### Eviction cleanup lemmas -/

theorem alookup_adelete_self (m : StrListMap) (k : String) :
    alookup (adelete m k) k = none := by
  unfold alookup adelete
  rw [List.find?_eq_none.mpr]
  · rfl
  · intro p hp
    simp only [decide_eq_true_eq]
    have := (List.mem_filter.mp hp).2
    simpa using this

theorem alookup_adelete_none (m : StrListMap) (k k' : String)
    (h : alookup m k = none) : alookup (adelete m k') k = none := by
  unfold alookup adelete
  unfold alookup at h
  rw [List.find?_eq_none.mpr]
  · rfl
  · intro p hp
    have hpm := (List.mem_filter.mp hp).1
    have hnone := List.find?_eq_none.mp (by
      cases hf : List.find? (fun p => p.1 = k) m with
      | none => rfl
      | some q => rw [hf] at h; simp at h)
    exact hnone p hpm

theorem alookup_scrubUnsent (m : StrListMap) (tid q : String) :
    alookup (scrubUnsent m tid) q
      = (alookup m q).map (fun l => l.filter (fun i => ¬ (i = tid))) := by
  unfold alookup scrubUnsent
  induction m with
  | nil => rfl
  | cons x xs ih =>
    by_cases hx : x.1 = q
    · simp [List.find?_cons, hx]
    · simpa [List.find?_cons, hx] using ih

theorem scrubUnsent_not_mem (m : StrListMap) (tid q : String) :
    tid ∉ ((alookup (scrubUnsent m tid) q).getD []) := by
  rw [alookup_scrubUnsent]
  cases h : alookup m q with
  | none => intro hmem; simp at hmem
  | some l =>
    intro hmem
    simp [List.mem_filter] at hmem

theorem scrubUnsent_preserves_not_mem (m : StrListMap) (tid x q : String)
    (h : x ∉ ((alookup m q).getD [])) :
    x ∉ ((alookup (scrubUnsent m tid) q).getD []) := by
  rw [alookup_scrubUnsent]
  cases hm : alookup m q with
  | none => intro hmem; simp at hmem
  | some l =>
    rw [hm] at h
    intro hmem
    simp [List.mem_filter] at hmem
    exact absurd hmem.1 (by simpa using h)

theorem evictFoldRecip_none (removed : List Tweet) (m : StrListMap) (k : String)
    (h : (alookup m k = none) ∨ (∃ t ∈ removed, t.id = k)) :
    alookup (removed.foldl (fun m t => adelete m t.id) m) k = none := by
  induction removed generalizing m with
  | nil =>
    rcases h with h | ⟨t, ht, _⟩
    · exact h
    · simp at ht
  | cons t ts ih =>
    simp only [List.foldl_cons]
    rcases h with h | ⟨u, hu, hk⟩
    · exact ih _ (Or.inl (alookup_adelete_none _ _ _ h))
    · rcases List.mem_cons.mp hu with rfl | hu2
      · by_cases hts : ∃ w ∈ ts, w.id = k
        · exact ih _ (Or.inr hts)
        · refine ih _ (Or.inl ?_)
          rw [← hk]
          exact alookup_adelete_self _ _
      · exact ih _ (Or.inr ⟨u, hu2, hk⟩)

theorem evictFoldUnsent_not_mem (removed : List Tweet) (m : StrListMap)
    (tid q : String)
    (h : (tid ∉ ((alookup m q).getD [])) ∨ (∃ t ∈ removed, t.id = tid)) :
    tid ∉ ((alookup (removed.foldl (fun m t => scrubUnsent m t.id) m) q).getD []) := by
  induction removed generalizing m with
  | nil =>
    rcases h with h | ⟨t, ht, _⟩
    · exact h
    · simp at ht
  | cons t ts ih =>
    simp only [List.foldl_cons]
    rcases h with h | ⟨u, hu, hk⟩
    · exact ih _ (Or.inl (scrubUnsent_preserves_not_mem _ _ _ _ h))
    · rcases List.mem_cons.mp hu with rfl | hu2
      · by_cases hts : ∃ w ∈ ts, w.id = tid
        · exact ih _ (Or.inr hts)
        · refine ih _ (Or.inl ?_)
          rw [← hk]
          exact scrubUnsent_not_mem _ _ _
      · exact ih _ (Or.inr ⟨u, hu2, hk⟩)

end Spellcast

namespace Spellcast

/-- Full characterization of the `broadcastTweet` fan-out loop, under the
invariant that the tweet's recipient entry already names every connection
(as seeded by `createTweet`): the recipient table, log and limiter are
unchanged, one send effect is appended per successful connection in
order, and the tweet id is in a peer's unsent queue afterwards exactly
when it was before or that peer's send failed. -/
theorem broadcastFold_spec (tid : String) (sendOk : String → Bool) (payload : OutMsg)
    (conns conns0 : List String) (st : TMState) (effs0 : List Effect)
    (hsub : ∀ p ∈ conns, p ∈ conns0)
    (hrec : alookup st.tweetRecipients tid = some conns0) :
    ((conns.foldl (broadcastStep tid sendOk payload) (st, effs0)).1.tweetRecipients
        = st.tweetRecipients)
    ∧ ((conns.foldl (broadcastStep tid sendOk payload) (st, effs0)).1.tweets = st.tweets)
    ∧ ((conns.foldl (broadcastStep tid sendOk payload) (st, effs0)).1.rl = st.rl)
    ∧ ((conns.foldl (broadcastStep tid sendOk payload) (st, effs0)).2
        = effs0 ++ (conns.filter sendOk).map (fun q => Effect.send q payload))
    ∧ (∀ q : String, tid ∉ ((alookup st.unsentTweets q).getD []) →
        (sendOk q = true ∨ q ∉ conns) →
        tid ∉ ((alookup (conns.foldl (broadcastStep tid sendOk payload)
          (st, effs0)).1.unsentTweets q).getD []))
    ∧ (∀ q : String, tid ∈ ((alookup st.unsentTweets q).getD []) →
        tid ∈ ((alookup (conns.foldl (broadcastStep tid sendOk payload)
          (st, effs0)).1.unsentTweets q).getD []))
    ∧ (∀ q ∈ conns, sendOk q = false →
        tid ∈ ((alookup (conns.foldl (broadcastStep tid sendOk payload)
          (st, effs0)).1.unsentTweets q).getD [])) := by
  induction conns generalizing st effs0 with
  | nil =>
    refine ⟨rfl, rfl, rfl, by simp, ?_, ?_, ?_⟩
    · intro q hq _; exact hq
    · intro q hq; exact hq
    · intro q hq; simp at hq
  | cons p ps ih =>
    have hsub' : ∀ x ∈ ps, x ∈ conns0 := fun x hx => hsub x (List.mem_cons_of_mem _ hx)
    have hp0 : p ∈ conns0 := hsub p (List.mem_cons_self _ _)
    by_cases hOk : sendOk p = true
    · have hstep : broadcastStep tid sendOk payload (st, effs0) p
          = (st, effs0 ++ [Effect.send p payload]) := by
        unfold broadcastStep
        dsimp only
        rw [if_pos hOk, hrec]
        dsimp only
        rw [if_pos hp0]
      simp only [List.foldl_cons, hstep]
      obtain ⟨ih1, ih2, ih3, ih4, ih5, ih6, ih7⟩ :=
        ih st (effs0 ++ [Effect.send p payload]) hsub' hrec
      refine ⟨ih1, ih2, ih3, ?_, ?_, ih6, ?_⟩
      · rw [ih4, List.filter_cons_of_pos hOk]
        simp [List.append_assoc]
      · intro q hq hcase
        apply ih5 q hq
        rcases hcase with h | h
        · exact Or.inl h
        · exact Or.inr (fun hmem => h (List.mem_cons_of_mem _ hmem))
      · intro q hq hf
        rcases List.mem_cons.mp hq with rfl | hq2
        · rw [hOk] at hf; cases hf
        · exact ih7 q hq2 hf
    · have hOkF : sendOk p = false := by
        revert hOk; cases sendOk p <;> simp
      have hstep : broadcastStep tid sendOk payload (st, effs0) p
          = ({ st with unsentTweets := addUnsent st.unsentTweets p tid }, effs0) := by
        unfold broadcastStep
        dsimp only
        rw [if_neg (by simp [hOkF])]
      simp only [List.foldl_cons, hstep]
      obtain ⟨ih1, ih2, ih3, ih4, ih5, ih6, ih7⟩ :=
        ih { st with unsentTweets := addUnsent st.unsentTweets p tid } effs0 hsub' hrec
      refine ⟨ih1, ih2, ih3, ?_, ?_, ?_, ?_⟩
      · rw [ih4, List.filter_cons_of_neg (by simp [hOkF])]
      · intro q hq hcase
        have hq' : tid ∉ ((alookup (addUnsent st.unsentTweets p tid) q).getD []) := by
          by_cases hqp : q = p
          · subst hqp
            rcases hcase with h | h
            · rw [hOkF] at h; cases h
            · exact absurd (List.mem_cons_self _ _) h
          · rw [addUnsent_other_peer _ _ _ _ hqp]
            exact hq
        apply ih5 q hq'
        rcases hcase with h | h
        · exact Or.inl h
        · exact Or.inr (fun hmem => h (List.mem_cons_of_mem _ hmem))
      · intro q hq
        apply ih6 q
        by_cases hqp : q = p
        · subst hqp
          exact addUnsent_preserves_mem _ _ _ _ hq
        · rw [addUnsent_other_peer _ _ _ _ hqp]
          exact hq
      · intro q hq hf
        rcases List.mem_cons.mp hq with rfl | hq2
        · exact ih6 _ (addUnsent_mem_self _ _ _)
        · exact ih7 q hq2 hf

end Spellcast

namespace Spellcast

theorem filter_send_self (l : List String) (payload : OutMsg) :
    (l.map (fun q => Effect.send q payload)).filter isSendEffect
      = l.map (fun q => Effect.send q payload) := by
  apply List.filter_eq_self.mpr
  intro e he
  obtain ⟨q, hq, rfl⟩ := List.mem_map.mp he
  rfl

/-- Claim C7: on the success path (content/media present and within
limits, rate limiter allowing, the constructed tweet passing re-validation
with a non-empty fresh id, log below its cap, and the fresh id in no
unsent queue), createTweet returns the id computed deterministically by
generateUniqueId from author name, content, creation time and local node
id; stores the message sorted into the log; seeds its recipient set with
exactly the currently connected peer ids; emits exactly one tweet send
per connection whose send succeeded (in connection order); after the call
the id is absent from the unsent queue of every successfully-sent peer
and present in the queue of every failed peer; and — the capped-log
clause, stated for every state — eviction keeps only the first
MAX_TWEETS_STORAGE entries of the sorted log and deletes every evicted
entry's recipient-set entry and unsent-queue occurrences. The call
returns the id without any acknowledgment having been processed. -/
theorem createTweet_success_spec (now : Int) (st : TMState)
    (content : Option String) (media : Option (String × String × String))
    (username peerId : String) (connections : List String) (sendOk : String → Bool)
    (hcm : ¬ (jtruthy (content.map JVal.str) = false ∧ media = none))
    (hlen : (content.elim false
      (fun s => MAX_TWEET_LENGTH < jsLength s) : Bool) = false)
    (hrl : (rlIsAllowed now "message" peerId MESSAGE_MAX_COUNT
      MESSAGE_TIME_WINDOW_MS st.rl).1 = true)
    (hne : ¬ (generateUniqueId username (contentTemplateStr content) now peerId = ""))
    (hval : validateTweet now (mkStoredTweet (some (.str username))
      (contentJVal content) (some (.num now))
      (generateUniqueId username (contentTemplateStr content) now peerId)
      (mediaIdJVal media) (mediaThumbJVal media) (mediaTypeJVal media)).toObj = true)
    (hfresh : st.tweets.any (fun t =>
      t.id = generateUniqueId username (contentTemplateStr content) now peerId) = false)
    (hcap : st.tweets.length < MAX_TWEETS_STORAGE)
    (hunsent : ∀ q : String,
      generateUniqueId username (contentTemplateStr content) now peerId
        ∉ ((alookup st.unsentTweets q).getD [])) :
    let tid := generateUniqueId username (contentTemplateStr content) now peerId
    let tweet := mkStoredTweet (some (.str username)) (contentJVal content)
      (some (.num now)) tid (mediaIdJVal media) (mediaThumbJVal media) (mediaTypeJVal media)
    let payload := OutMsg.tweetMsg username content now tid media
    let res := createTweet now st content media username peerId connections sendOk
    (res.1 = .ok tid
    ∧ res.2.1.tweets = sortTweetsList (st.tweets ++ [tweet])
    ∧ alookup res.2.1.tweetRecipients tid = some connections
    ∧ res.2.2.filter isSendEffect
        = (connections.filter sendOk).map (fun q => Effect.send q payload)
    ∧ (∀ q ∈ connections, sendOk q = true →
        tid ∉ ((alookup res.2.1.unsentTweets q).getD []))
    ∧ (∀ q ∈ connections, sendOk q = false →
        tid ∈ ((alookup res.2.1.unsentTweets q).getD []))
    ∧ (∀ s : TMState, MAX_TWEETS_STORAGE < s.tweets.length →
        (evictExcess s).tweets = s.tweets.take MAX_TWEETS_STORAGE
        ∧ (∀ t ∈ s.tweets.drop MAX_TWEETS_STORAGE,
            alookup (evictExcess s).tweetRecipients t.id = none
            ∧ ∀ q : String, t.id ∉ ((alookup (evictExcess s).unsentTweets q).getD [])))) := by
  intro tid tweet payload res
  have hadd := addTweet_fresh now peerId
    { st with rl := (rlIsAllowed now "message" peerId MESSAGE_MAX_COUNT
        MESSAGE_TIME_WINDOW_MS st.rl).2 }
    (some (.str username)) (contentJVal content) (some (.num now))
    (some connections) tid (mediaIdJVal media) (mediaThumbJVal media)
    (mediaTypeJVal media) hne hfresh hval hcap
  have hres : res
      = (.ok tid,
         (broadcastTweet
           { st with
             rl := (rlIsAllowed now "message" peerId MESSAGE_MAX_COUNT
               MESSAGE_TIME_WINDOW_MS st.rl).2,
             tweets := sortTweetsList (st.tweets ++ [tweet]),
             tweetRecipients := recipSeed st.tweetRecipients tid (some connections) }
           username content now tid media connections sendOk).1,
         [Effect.saveTweets, Effect.saveDistState, Effect.notifyTweetsUpdated]
           ++ (broadcastTweet
           { st with
             rl := (rlIsAllowed now "message" peerId MESSAGE_MAX_COUNT
               MESSAGE_TIME_WINDOW_MS st.rl).2,
             tweets := sortTweetsList (st.tweets ++ [tweet]),
             tweetRecipients := recipSeed st.tweetRecipients tid (some connections) }
           username content now tid media connections sendOk).2
           ++ [Effect.notifyTweetsUpdated]) := by
    show createTweet now st content media username peerId connections sendOk = _
    unfold createTweet
    rw [if_neg hcm, if_neg (by simp [hlen])]
    dsimp only
    rw [if_neg (by simp [hrl]), hadd]
  have hrec1 : alookup (recipSeed st.tweetRecipients tid (some connections)) tid
      = some connections := by
    unfold recipSeed
    exact alookup_aset _ _ _
  obtain ⟨b1, b2, b3, b4, b5, b6, b7⟩ := broadcastFold_spec tid sendOk payload
    connections connections
    { st with
      rl := (rlIsAllowed now "message" peerId MESSAGE_MAX_COUNT
        MESSAGE_TIME_WINDOW_MS st.rl).2,
      tweets := sortTweetsList (st.tweets ++ [tweet]),
      tweetRecipients := recipSeed st.tweetRecipients tid (some connections) }
    [] (fun p hp => hp) hrec1
  rw [hres]
  refine ⟨rfl, ?_, ?_, ?_, ?_, ?_, ?_⟩
  · show (broadcastTweet _ username content now tid media connections sendOk).1.tweets = _
    rw [broadcastTweet_tweets]
  · show alookup (broadcastTweet _ username content now tid media
        connections sendOk).1.tweetRecipients tid = some connections
    unfold broadcastTweet
    dsimp only
    rw [b1]
    exact hrec1
  · show (_ ++ ((broadcastTweet _ username content now tid media
        connections sendOk).2) ++ _).filter isSendEffect = _
    unfold broadcastTweet
    dsimp only
    rw [b4]
    simp only [List.nil_append, List.filter_append]
    rw [filter_send_self]
    simp [isSendEffect]
  · intro q hq hok
    show tid ∉ ((alookup (broadcastTweet _ username content now tid media
        connections sendOk).1.unsentTweets q).getD [])
    unfold broadcastTweet
    dsimp only
    exact b5 q (hunsent q) (Or.inl hok)
  · intro q hq hfail
    show tid ∈ ((alookup (broadcastTweet _ username content now tid media
        connections sendOk).1.unsentTweets q).getD [])
    unfold broadcastTweet
    dsimp only
    exact b7 q hq hfail
  · intro s hover
    unfold evictExcess
    rw [if_pos hover]
    refine ⟨rfl, ?_⟩
    intro t ht
    constructor
    · exact evictFoldRecip_none _ _ _ (Or.inr ⟨t, ht, rfl⟩)
    · intro q
      exact evictFoldUnsent_not_mem _ _ _ _ (Or.inr ⟨t, ht, rfl⟩)

end Spellcast

namespace Spellcast

/-- Witness for claim C7: a concrete creation against one connected peer
returns the deterministically computed id. -/
theorem createTweet_success_spec_witness :
    (createTweet 1000 ⟨[], [], [], []⟩ (some "hi") none "alice" "self" ["bob"]
      (fun _ => true)).1
      = .ok (generateUniqueId "alice" "hi" 1000 "self") := by
  have h := createTweet_success_spec 1000 ⟨[], [], [], []⟩ (some "hi") none
    "alice" "self" ["bob"] (fun _ => true)
    (by decide) (by decide) (by decide) (by decide) (by decide) (by decide)
    (by decide) (fun q => by simp [alookup])
  exact h.1

end Spellcast

namespace Spellcast

/-! ### Catch-up send lemmas (C6) -/

theorem needsSendId_iff (st : TMState) (peer id : String) :
    needsSendId st peer id = true ↔ peer ∉ ((alookup st.tweetRecipients id).getD []) := by
  unfold needsSendId
  cases h : alookup st.tweetRecipients id with
  | none => simp
  | some l => simp

theorem selUnsentBase_mem (st : TMState) (peer x : String) :
    x ∈ selUnsentBase st peer ↔ x ∈ ((alookup st.unsentTweets peer).getD []) := by
  unfold selUnsentBase
  cases h : alookup st.unsentTweets peer with
  | none => simp
  | some l =>
    simp only [Option.getD_some]
    by_cases hl : 0 < l.length
    · rw [if_pos hl]
    · have hnil : l = [] := List.length_eq_zero.mp (Nat.eq_zero_of_not_pos hl)
      rw [if_neg hl, hnil]

theorem selUnsentIds_mem (st : TMState) (peer : String) (x : String) :
    x ∈ selUnsentIds st peer ↔
      x ∈ selUnsentBase st peer ∨
        ∃ t ∈ st.tweets, t.id = x ∧ needsSendId st peer x = true := by
  have key : ∀ (l : List Tweet) (acc : List String),
      (x ∈ l.foldl (fun (acc : List String) (t : Tweet) =>
          if needsSendId st peer t.id = true ∧ t.id ∉ acc then acc ++ [t.id] else acc) acc ↔
        x ∈ acc ∨ ∃ t ∈ l, t.id = x ∧ needsSendId st peer x = true) := by
    intro l
    induction l with
    | nil => intro acc; simp
    | cons t ts ih =>
      intro acc
      simp only [List.foldl_cons]
      by_cases hc : needsSendId st peer t.id = true ∧ t.id ∉ acc
      · rw [if_pos hc, ih]
        simp only [List.mem_append, List.mem_cons, List.not_mem_nil, or_false]
        constructor
        · rintro ((hx | hx) | ⟨u, hu, hux, hns⟩)
          · exact Or.inl hx
          · subst hx
            exact Or.inr ⟨t, Or.inl rfl, rfl, hc.1⟩
          · exact Or.inr ⟨u, Or.inr hu, hux, hns⟩
        · rintro (hx | ⟨u, hu, hux, hns⟩)
          · exact Or.inl (Or.inl hx)
          · rcases hu with hu | hu
            · subst hu
              exact Or.inl (Or.inr hux.symm)
            · exact Or.inr ⟨u, hu, hux, hns⟩
      · rw [if_neg hc, ih]
        constructor
        · rintro (hx | ⟨u, hu, hux, hns⟩)
          · exact Or.inl hx
          · exact Or.inr ⟨u, List.mem_cons_of_mem _ hu, hux, hns⟩
        · rintro (hx | ⟨u, hu, hux, hns⟩)
          · exact Or.inl hx
          · rcases List.mem_cons.mp hu with hu | hu
            · subst hu
              rw [hux] at hc
              push_neg at hc
              rw [← hux] at hns
              rw [hux] at hns
              exact Or.inl (hc hns)
            · exact Or.inr ⟨u, hu, hux, hns⟩
  unfold selUnsentIds
  exact key st.tweets (selUnsentBase st peer)

theorem chunks20_flatten_aux : ∀ (n : Nat) (l : List Tweet), l.length ≤ n →
    (chunks20 l).flatten = l := by
  intro n
  induction n with
  | zero =>
    intro l hl
    have hnil : l = [] := List.length_eq_zero.mp (Nat.le_zero.mp hl)
    subst hnil
    simp [chunks20]
  | succ n ih =>
    intro l hl
    cases l with
    | nil => simp [chunks20]
    | cons x xs =>
      have hxs : xs.length ≤ n := by
        have hh := hl
        simp only [List.length_cons] at hh
        omega
      have hlen : (xs.drop 19).length ≤ n := by
        simp only [List.length_drop]
        omega
      simp only [chunks20, List.flatten_cons]
      rw [ih (xs.drop 19) hlen]
      simp [List.take_append_drop]

theorem chunks20_flatten (l : List Tweet) : (chunks20 l).flatten = l :=
  chunks20_flatten_aux l.length l le_rfl

theorem chunks20_sizes_aux : ∀ (n : Nat) (l : List Tweet), l.length ≤ n →
    ∀ b ∈ chunks20 l, b.length ≤ BATCH_SIZE := by
  intro n
  induction n with
  | zero =>
    intro l hl
    have hnil : l = [] := List.length_eq_zero.mp (Nat.le_zero.mp hl)
    subst hnil
    simp [chunks20]
  | succ n ih =>
    intro l hl
    cases l with
    | nil => simp [chunks20]
    | cons x xs =>
      have hxs : xs.length ≤ n := by
        have hh := hl
        simp only [List.length_cons] at hh
        omega
      simp only [chunks20, List.mem_cons]
      rintro b (hb | hb)
      · subst hb
        simp only [BATCH_SIZE, List.length_cons, List.length_take]
        omega
      · exact ih (xs.drop 19) (by simp only [List.length_drop]; omega) b hb

theorem chunks20_sizes (l : List Tweet) : ∀ b ∈ chunks20 l, b.length ≤ BATCH_SIZE :=
  chunks20_sizes_aux l.length l le_rfl

theorem catchupSentIds_append (a c : List Effect) :
    catchupSentIds (a ++ c) = catchupSentIds a ++ catchupSentIds c := by
  unfold catchupSentIds
  induction a with
  | nil => rfl
  | cons e rest ih =>
    simp only [List.cons_append, List.foldr_cons]
    rw [ih, List.append_assoc]

theorem catchupSentIds_batch (p : String) (b : List Tweet) :
    catchupSentIds [Effect.send p (OutMsg.allTweets b), Effect.saveDistState]
      = b.map (fun t => t.id) := by
  simp [catchupSentIds, sentIdsOf]

theorem flatten_map_ids : ∀ (L : List (List Tweet)),
    (L.map (fun b => b.map (fun t => t.id))).flatten = L.flatten.map (fun t => t.id) := by
  intro L
  induction L with
  | nil => rfl
  | cons b bs ih =>
    simp only [List.map_cons, List.flatten_cons, List.map_append, ih]

end Spellcast

namespace Spellcast

/-! ### Batch-processing fold lemmas (C6) -/

theorem selBatchStep_eq (peer : String) (batchOk : Nat → Bool) (s : TMState)
    (effs : List Effect) (idx : Nat) (b : List Tweet) :
    selBatchStep peer batchOk (s, effs, idx) b =
      if batchOk idx then
        (markBatch peer s b,
         effs ++ [Effect.send peer (OutMsg.allTweets b), Effect.saveDistState], idx + 1)
      else (requeueBatch peer s b, effs ++ [Effect.saveDistState], idx + 1) := rfl

theorem selFold_sent_allOk (peer : String) (batchOk : Nat → Bool)
    (hok : ∀ i, batchOk i = true) :
    ∀ (batches : List (List Tweet)) (s : TMState) (effs : List Effect) (idx : Nat),
      catchupSentIds ((batches.foldl (selBatchStep peer batchOk) (s, effs, idx)).2.1)
        = catchupSentIds effs ++ (batches.map (fun b => b.map (fun t => t.id))).flatten := by
  intro batches
  induction batches with
  | nil => intro s effs idx; simp
  | cons b rest ih =>
    intro s effs idx
    rw [List.foldl_cons, selBatchStep_eq, if_pos (hok idx), ih,
        catchupSentIds_append, catchupSentIds_batch]
    simp only [List.map_cons, List.flatten_cons, List.append_assoc]

theorem selFold_send_mem (peer : String) (batchOk : Nat → Bool) :
    ∀ (batches : List (List Tweet)) (s : TMState) (effs : List Effect) (idx : Nat)
      (p : String) (b : List Tweet),
      Effect.send p (OutMsg.allTweets b)
          ∈ (batches.foldl (selBatchStep peer batchOk) (s, effs, idx)).2.1 →
      Effect.send p (OutMsg.allTweets b) ∈ effs ∨ b ∈ batches := by
  intro batches
  induction batches with
  | nil => intro s effs idx p b h; exact Or.inl h
  | cons b0 rest ih =>
    intro s effs idx p b h
    rw [List.foldl_cons, selBatchStep_eq] at h
    by_cases hb : batchOk idx = true
    · rw [if_pos hb] at h
      rcases ih _ _ _ p b h with h1 | h1
      · rcases List.mem_append.mp h1 with h2 | h2
        · exact Or.inl h2
        · simp only [List.mem_cons, List.not_mem_nil, or_false] at h2
          rcases h2 with h2 | h2
          · simp only [Effect.send.injEq, OutMsg.allTweets.injEq] at h2
            exact Or.inr (h2.2 ▸ List.mem_cons_self _ _)
          · simp at h2
      · exact Or.inr (List.mem_cons_of_mem _ h1)
    · rw [if_neg hb] at h
      rcases ih _ _ _ p b h with h1 | h1
      · rcases List.mem_append.mp h1 with h2 | h2
        · exact Or.inl h2
        · simp at h2
      · exact Or.inr (List.mem_cons_of_mem _ h1)

theorem markBatch_recip_preserved (peer : String) (b : List Tweet) (id q : String) :
    ∀ (s : TMState), q ∈ ((alookup s.tweetRecipients id).getD []) →
      q ∈ ((alookup (markBatch peer s b).tweetRecipients id).getD []) := by
  unfold markBatch
  induction b with
  | nil => intro s h; exact h
  | cons t ts ih =>
    intro s h
    simp only [List.foldl_cons]
    exact ih _ (markRecipient_mem_preserved _ _ _ _ _ h)

theorem markBatch_unsent_not_mem_preserved (peer : String) (b : List Tweet) (x : String) :
    ∀ (s : TMState), x ∉ ((alookup s.unsentTweets peer).getD []) →
      x ∉ ((alookup (markBatch peer s b).unsentTweets peer).getD []) := by
  unfold markBatch
  induction b with
  | nil => intro s h; exact h
  | cons t ts ih =>
    intro s h
    simp only [List.foldl_cons]
    exact ih _ (removeUnsent_preserves_not_mem _ _ _ _ h)

theorem markBatch_unsent_mem_preserved (peer : String) (b : List Tweet) (x : String) :
    ∀ (s : TMState), (∀ u ∈ b, ¬ (u.id = x)) →
      x ∈ ((alookup s.unsentTweets peer).getD []) →
      x ∈ ((alookup (markBatch peer s b).unsentTweets peer).getD []) := by
  unfold markBatch
  induction b with
  | nil => intro s _ h; exact h
  | cons t ts ih =>
    intro s hd h
    simp only [List.foldl_cons]
    refine ih _ (fun u hu => hd u (List.mem_cons_of_mem _ hu)) ?_
    exact removeUnsent_preserves_mem _ _ _ _
      (fun hh => hd t (List.mem_cons_self _ _) hh.symm) h

theorem markBatch_recip_mem (peer : String) (b : List Tweet) (t : Tweet) :
    ∀ (s : TMState), t ∈ b →
      peer ∈ ((alookup (markBatch peer s b).tweetRecipients t.id).getD []) := by
  induction b with
  | nil => intro s h; exact absurd h (List.not_mem_nil t)
  | cons u us ih =>
    intro s h
    rcases List.mem_cons.mp h with h | h
    · subst h
      unfold markBatch
      simp only [List.foldl_cons]
      exact markBatch_recip_preserved peer us t.id peer _ (markRecipient_mem _ _ _)
    · unfold markBatch
      simp only [List.foldl_cons]
      exact ih _ h

theorem markBatch_unsent_not_mem (peer : String) (b : List Tweet) (t : Tweet) :
    ∀ (s : TMState), t ∈ b →
      t.id ∉ ((alookup (markBatch peer s b).unsentTweets peer).getD []) := by
  induction b with
  | nil => intro s h; exact absurd h (List.not_mem_nil t)
  | cons u us ih =>
    intro s h
    rcases List.mem_cons.mp h with h | h
    · subst h
      unfold markBatch
      simp only [List.foldl_cons]
      exact markBatch_unsent_not_mem_preserved peer us t.id _
        (removeUnsent_not_mem_self _ _ _)
    · unfold markBatch
      simp only [List.foldl_cons]
      exact ih _ h

theorem requeueBatch_recip (peer : String) (b : List Tweet) :
    ∀ (s : TMState), (requeueBatch peer s b).tweetRecipients = s.tweetRecipients := by
  unfold requeueBatch
  induction b with
  | nil => intro s; rfl
  | cons t ts ih =>
    intro s
    simp only [List.foldl_cons]
    exact ih _

theorem requeueBatch_unsent_mem_preserved (peer : String) (b : List Tweet) (x : String) :
    ∀ (s : TMState), x ∈ ((alookup s.unsentTweets peer).getD []) →
      x ∈ ((alookup (requeueBatch peer s b).unsentTweets peer).getD []) := by
  unfold requeueBatch
  induction b with
  | nil => intro s h; exact h
  | cons t ts ih =>
    intro s h
    simp only [List.foldl_cons]
    exact ih _ (addUnsent_preserves_mem _ _ _ _ h)

theorem requeueBatch_unsent_not_mem_preserved (peer : String) (b : List Tweet) (x : String) :
    ∀ (s : TMState), (∀ u ∈ b, ¬ (u.id = x)) →
      x ∉ ((alookup s.unsentTweets peer).getD []) →
      x ∉ ((alookup (requeueBatch peer s b).unsentTweets peer).getD []) := by
  unfold requeueBatch
  induction b with
  | nil => intro s _ h; exact h
  | cons t ts ih =>
    intro s hd h
    simp only [List.foldl_cons]
    refine ih _ (fun u hu => hd u (List.mem_cons_of_mem _ hu)) ?_
    exact addUnsent_preserves_not_mem _ _ _ _
      (fun hh => hd t (List.mem_cons_self _ _) hh.symm) h

theorem requeueBatch_unsent_mem (peer : String) (b : List Tweet) (t : Tweet) :
    ∀ (s : TMState), t ∈ b →
      t.id ∈ ((alookup (requeueBatch peer s b).unsentTweets peer).getD []) := by
  induction b with
  | nil => intro s h; exact absurd h (List.not_mem_nil t)
  | cons u us ih =>
    intro s h
    rcases List.mem_cons.mp h with h | h
    · subst h
      unfold requeueBatch
      simp only [List.foldl_cons]
      exact requeueBatch_unsent_mem_preserved peer us t.id _ (addUnsent_mem_self _ _ _)
    · unfold requeueBatch
      simp only [List.foldl_cons]
      exact ih _ h

theorem selFold_preserves_marked (peer : String) (batchOk : Nat → Bool) (id : String) :
    ∀ (batches : List (List Tweet)) (s : TMState) (effs : List Effect) (idx : Nat),
      (∀ b ∈ batches, ∀ u ∈ b, ¬ (u.id = id)) →
      peer ∈ ((alookup s.tweetRecipients id).getD []) →
      id ∉ ((alookup s.unsentTweets peer).getD []) →
      peer ∈ ((alookup (batches.foldl (selBatchStep peer batchOk)
          (s, effs, idx)).1.tweetRecipients id).getD [])
      ∧ id ∉ ((alookup (batches.foldl (selBatchStep peer batchOk)
          (s, effs, idx)).1.unsentTweets peer).getD []) := by
  intro batches
  induction batches with
  | nil => intro s effs idx _ h1 h2; exact ⟨h1, h2⟩
  | cons b rest ih =>
    intro s effs idx hd h1 h2
    rw [List.foldl_cons, selBatchStep_eq]
    by_cases hb : batchOk idx = true
    · rw [if_pos hb]
      exact ih _ _ _ (fun b' hb' => hd b' (List.mem_cons_of_mem _ hb'))
        (markBatch_recip_preserved peer b id peer _ h1)
        (markBatch_unsent_not_mem_preserved peer b id _ h2)
    · rw [if_neg hb]
      refine ih _ _ _ (fun b' hb' => hd b' (List.mem_cons_of_mem _ hb')) ?_ ?_
      · rw [requeueBatch_recip]
        exact h1
      · exact requeueBatch_unsent_not_mem_preserved peer b id _
          (fun u hu => hd b (List.mem_cons_self _ _) u hu) h2

theorem selFold_preserves_unsent_mem (peer : String) (batchOk : Nat → Bool) (id : String) :
    ∀ (batches : List (List Tweet)) (s : TMState) (effs : List Effect) (idx : Nat),
      (∀ b ∈ batches, ∀ u ∈ b, ¬ (u.id = id)) →
      id ∈ ((alookup s.unsentTweets peer).getD []) →
      id ∈ ((alookup (batches.foldl (selBatchStep peer batchOk)
          (s, effs, idx)).1.unsentTweets peer).getD []) := by
  intro batches
  induction batches with
  | nil => intro s effs idx _ h; exact h
  | cons b rest ih =>
    intro s effs idx hd h
    rw [List.foldl_cons, selBatchStep_eq]
    by_cases hb : batchOk idx = true
    · rw [if_pos hb]
      exact ih _ _ _ (fun b' hb' => hd b' (List.mem_cons_of_mem _ hb'))
        (markBatch_unsent_mem_preserved peer b id _
          (fun u hu => hd b (List.mem_cons_self _ _) u hu) h)
    · rw [if_neg hb]
      exact ih _ _ _ (fun b' hb' => hd b' (List.mem_cons_of_mem _ hb'))
        (requeueBatch_unsent_mem_preserved peer b id _ h)

theorem selFold_batch_spec (peer : String) (batchOk : Nat → Bool) :
    ∀ (batches : List (List Tweet)) (s : TMState) (effs : List Effect) (idx : Nat),
      ((batches.flatten.map (fun t => t.id)).Nodup) →
      ∀ (i : Nat) (b : List Tweet), batches[i]? = some b → ∀ t ∈ b,
        (batchOk (idx + i) = true →
          peer ∈ ((alookup (batches.foldl (selBatchStep peer batchOk)
              (s, effs, idx)).1.tweetRecipients t.id).getD [])
          ∧ t.id ∉ ((alookup (batches.foldl (selBatchStep peer batchOk)
              (s, effs, idx)).1.unsentTweets peer).getD []))
        ∧ (batchOk (idx + i) = false →
          t.id ∈ ((alookup (batches.foldl (selBatchStep peer batchOk)
              (s, effs, idx)).1.unsentTweets peer).getD [])) := by
  intro batches
  induction batches with
  | nil =>
    intro s effs idx _ i b hib
    simp at hib
  | cons b0 rest ih =>
    intro s effs idx hnd i b hib t ht
    have hnd' : ((rest.flatten.map (fun t => t.id)).Nodup) := by
      simp only [List.flatten_cons, List.map_append] at hnd
      exact (List.nodup_append.mp hnd).2.1
    have hdisj : ∀ x ∈ b0, ∀ b' ∈ rest, ∀ u ∈ b', ¬ (u.id = x.id) := by
      intro x hx b' hb' u hu heq
      simp only [List.flatten_cons, List.map_append] at hnd
      exact (List.nodup_append.mp hnd).2.2 (List.mem_map.mpr ⟨x, hx, rfl⟩)
        (List.mem_map.mpr ⟨u, List.mem_flatten.mpr ⟨b', hb', hu⟩, heq⟩)
    rw [List.foldl_cons, selBatchStep_eq]
    cases i with
    | zero =>
      have hb0 : b0 = b := by
        simp only [List.getElem?_cons_zero, Option.some.injEq] at hib
        exact hib
      subst hb0
      constructor
      · intro hok
        rw [Nat.add_zero] at hok
        rw [if_pos hok]
        exact selFold_preserves_marked peer batchOk t.id rest _ _ _
          (fun b' hb' u hu => hdisj t ht b' hb' u hu)
          (markBatch_recip_mem peer b0 t _ ht)
          (markBatch_unsent_not_mem peer b0 t _ ht)
      · intro hfail
        rw [Nat.add_zero] at hfail
        rw [if_neg (by simp [hfail])]
        exact selFold_preserves_unsent_mem peer batchOk t.id rest _ _ _
          (fun b' hb' u hu => hdisj t ht b' hb' u hu)
          (requeueBatch_unsent_mem peer b0 t _ ht)
    | succ j =>
      have hib' : rest[j]? = some b := by simpa using hib
      have hidx : idx + (j + 1) = (idx + 1) + j := by omega
      rw [hidx]
      by_cases hb : batchOk idx = true
      · rw [if_pos hb]
        exact ih _ _ _ hnd' j b hib' t ht
      · rw [if_neg hb]
        exact ih _ _ _ hnd' j b hib' t ht

end Spellcast

namespace Spellcast

/-- Claim C6, counterexample: a stale id in the peer's unsent queue that no
longer names a stored message (possible because deleteTweet never cleans
unsent queues) makes the claimed union nonempty, yet the catch-up run sends
nothing at all and leaves the state unchanged: the sent set does not equal
the union of the unsent queue and the unconfirmed stored ids. -/
theorem sendSelective_staleUnsent_counterexample :
    "ghost" ∈ ((alookup (⟨[], [], [("p", ["ghost"])], []⟩ : TMState).unsentTweets "p").getD [])
    ∧ catchupSentIds (sendSelectiveTweets ⟨[], [], [("p", ["ghost"])], []⟩ "p"
        (fun _ => true)).2 = []
    ∧ (sendSelectiveTweets ⟨[], [], [("p", ["ghost"])], []⟩ "p" (fun _ => true)).1
        = ⟨[], [], [("p", ["ghost"])], []⟩ := by
  have hres : sendSelectiveTweets ⟨[], [], [("p", ["ghost"])], []⟩ "p" (fun _ => true)
      = (⟨[], [], [("p", ["ghost"])], []⟩, []) := by
    unfold sendSelectiveTweets
    rw [if_neg (by decide)]
    have htts : selTweetsToSend (⟨[], [], [("p", ["ghost"])], []⟩ : TMState) "p" = [] := rfl
    rw [htts]
    simp [chunks20]
  refine ⟨by decide, ?_, ?_⟩
  · rw [hres]
    rfl
  · rw [hres]

/-- Claim C6 (amended): for a catch-up run to peer p over a log with
distinct ids, (1) if every batch send succeeds, the set of ids sent equals
the STORED ids lying in the union of p's unsent queue and the ids whose
recipient set does not contain p (stale unsent ids naming no stored message
are silently skipped, not sent); (2) every batch sent has at most
BATCH_SIZE messages; (3) a peer confirmed for every stored message whose
unsent queue holds no stored id gets zero catch-up sends and an unchanged
state; (4) each message of a successfully sent batch ends with p in its
recipient set and its id off p's unsent queue, and each message of a batch
whose send failed ends with its id in p's unsent queue. -/
theorem sendSelective_catchup_spec (st : TMState) (peer : String) (batchOk : Nat → Bool)
    (hnd : ((st.tweets.map (fun t => t.id)).Nodup)) :
    ((∀ i, batchOk i = true) → ∀ x,
        (x ∈ catchupSentIds (sendSelectiveTweets st peer batchOk).2 ↔
          (∃ t ∈ st.tweets, t.id = x) ∧
            (x ∈ ((alookup st.unsentTweets peer).getD []) ∨
             peer ∉ ((alookup st.tweetRecipients x).getD []))))
    ∧ (∀ (p : String) (b : List Tweet),
        Effect.send p (OutMsg.allTweets b) ∈ (sendSelectiveTweets st peer batchOk).2 →
          b.length ≤ BATCH_SIZE)
    ∧ ((∀ t ∈ st.tweets, peer ∈ ((alookup st.tweetRecipients t.id).getD [])
          ∧ t.id ∉ ((alookup st.unsentTweets peer).getD [])) →
        sendSelectiveTweets st peer batchOk = (st, []))
    ∧ (∀ (i : Nat) (b : List Tweet), (chunks20 (selTweetsToSend st peer))[i]? = some b →
        ∀ t ∈ b,
          (batchOk i = true →
            peer ∈ ((alookup (sendSelectiveTweets st peer batchOk).1.tweetRecipients
                t.id).getD [])
            ∧ t.id ∉ ((alookup (sendSelectiveTweets st peer batchOk).1.unsentTweets
                peer).getD []))
          ∧ (batchOk i = false →
            t.id ∈ ((alookup (sendSelectiveTweets st peer batchOk).1.unsentTweets
                peer).getD []))) := by
  have htts_nodup : (((selTweetsToSend st peer).map (fun t => t.id)).Nodup) := by
    have hsub : (selTweetsToSend st peer).Sublist st.tweets := List.filter_sublist _
    exact hnd.sublist (hsub.map _)
  have hbatches_nodup :
      (((chunks20 (selTweetsToSend st peer)).flatten.map (fun t => t.id)).Nodup) := by
    rw [chunks20_flatten]
    exact htts_nodup
  by_cases hsel : selUnsentIds st peer = []
  · have hres : sendSelectiveTweets st peer batchOk = (st, []) := by
      unfold sendSelectiveTweets
      rw [if_pos hsel]
    have htts : selTweetsToSend st peer = [] := by
      unfold selTweetsToSend
      refine List.filter_eq_nil_iff.mpr ?_
      intro t _
      simp [hsel]
    refine ⟨?_, ?_, ?_, ?_⟩
    · intro _ x
      rw [hres]
      constructor
      · intro hx
        simp [catchupSentIds] at hx
      · rintro ⟨⟨t, ht, htx⟩, hcond⟩
        have hmem : x ∈ selUnsentIds st peer := by
          rcases hcond with hc | hc
          · exact (selUnsentIds_mem st peer x).mpr
              (Or.inl ((selUnsentBase_mem st peer x).mpr hc))
          · exact (selUnsentIds_mem st peer x).mpr
              (Or.inr ⟨t, ht, htx, (needsSendId_iff st peer x).mpr hc⟩)
        rw [hsel] at hmem
        simp at hmem
    · intro p b hb
      rw [hres] at hb
      simp at hb
    · intro _
      exact hres
    · intro i b hib
      rw [htts] at hib
      simp [chunks20] at hib
  · have hres : sendSelectiveTweets st peer batchOk =
        (((chunks20 (selTweetsToSend st peer)).foldl (selBatchStep peer batchOk)
            (st, [], 0)).1,
         ((chunks20 (selTweetsToSend st peer)).foldl (selBatchStep peer batchOk)
            (st, [], 0)).2.1) := by
      unfold sendSelectiveTweets
      rw [if_neg hsel]
    refine ⟨?_, ?_, ?_, ?_⟩
    · intro hok x
      rw [hres]
      dsimp only
      rw [selFold_sent_allOk peer batchOk hok, flatten_map_ids, chunks20_flatten]
      simp only [catchupSentIds, List.foldr_nil, List.nil_append]
      constructor
      · intro hx
        rcases List.mem_map.mp hx with ⟨t, htf, rfl⟩
        have hft := List.mem_filter.mp htf
        refine ⟨⟨t, hft.1, rfl⟩, ?_⟩
        have hmem : t.id ∈ selUnsentIds st peer := by simpa using hft.2
        rcases (selUnsentIds_mem st peer t.id).mp hmem with hc | ⟨u, _, _, hns⟩
        · exact Or.inl ((selUnsentBase_mem _ _ _).mp hc)
        · exact Or.inr ((needsSendId_iff _ _ _).mp hns)
      · rintro ⟨⟨t, ht, rfl⟩, hcond⟩
        have hmem : t.id ∈ selUnsentIds st peer := by
          rcases hcond with hc | hc
          · exact (selUnsentIds_mem st peer t.id).mpr
              (Or.inl ((selUnsentBase_mem st peer t.id).mpr hc))
          · exact (selUnsentIds_mem st peer t.id).mpr
              (Or.inr ⟨t, ht, rfl, (needsSendId_iff st peer t.id).mpr hc⟩)
        exact List.mem_map.mpr ⟨t, List.mem_filter.mpr ⟨ht, by simpa using hmem⟩, rfl⟩
    · intro p b hb
      rw [hres] at hb
      dsimp only at hb
      rcases selFold_send_mem peer batchOk _ _ _ _ p b hb with h1 | h1
      · simp at h1
      · exact chunks20_sizes _ b h1
    · intro hall
      have htts : selTweetsToSend st peer = [] := by
        unfold selTweetsToSend
        refine List.filter_eq_nil_iff.mpr ?_
        intro t ht
        suffices hns : t.id ∉ selUnsentIds st peer by simpa using hns
        intro hmem
        rcases (selUnsentIds_mem st peer t.id).mp hmem with hc | ⟨u, _, _, hns⟩
        · exact (hall t ht).2 ((selUnsentBase_mem _ _ _).mp hc)
        · exact ((needsSendId_iff _ _ _).mp hns) (hall t ht).1
      rw [hres, htts]
      simp [chunks20]
    · intro i b hib t ht
      rw [hres]
      dsimp only
      have h := selFold_batch_spec peer batchOk (chunks20 (selTweetsToSend st peer))
        st [] 0 hbatches_nodup i b hib t ht
      simpa using h

/-- Witness for the amended C6 theorem: a concrete fully-caught-up peer
(one stored message already confirmed for it, empty unsent queue) receives
zero catch-up sends and the state is unchanged. -/
theorem sendSelective_catchup_spec_witness :
    ((([⟨some (.str "alice"), some (.str "hi"), some (.num 1000), "m1",
        none, none, none⟩] : List Tweet).map (fun t => t.id)).Nodup)
    ∧ sendSelectiveTweets ⟨[⟨some (.str "alice"), some (.str "hi"), some (.num 1000),
        "m1", none, none, none⟩], [("m1", ["p"])], [], []⟩ "p" (fun _ => true)
      = (⟨[⟨some (.str "alice"), some (.str "hi"), some (.num 1000), "m1",
          none, none, none⟩], [("m1", ["p"])], [], []⟩, []) := by
  have h := sendSelective_catchup_spec
    ⟨[⟨some (.str "alice"), some (.str "hi"), some (.num 1000), "m1",
      none, none, none⟩], [("m1", ["p"])], [], []⟩ "p" (fun _ => true) (by decide)
  refine ⟨by decide, h.2.2.1 ?_⟩
  intro t ht
  simp only [List.mem_singleton] at ht
  subst ht
  exact ⟨by decide, by decide⟩

end Spellcast
